import Mathlib

/- Verification of the job lifecycle and reconciliation subsystem of
   bin/tm-api-server.py: durable job records in proc-*.state files,
   listing-time reclassification (get_processes_json), launch
   (_api_backup_start / run_backup), kill (_api_backup_kill) and startup
   reconciliation (_reconcile_state_files).

   Python strings are modelled as lists of characters; the state
   directory, exit-code markers and log files are modelled as association
   lists from names to optional contents (none models a file whose read
   raises, which the source swallows with try/except). File writes are
   modelled as succeeding, and the order of the file list stands for the
   enumeration order of the corresponding glob call. -/

namespace TMServer

/-- Chars models a Python string as a list of characters. -/
abbrev Chars := List Char

/-- str converts a Lean string literal to its character-list model. -/
def str (s : String) : Chars := s.data

/-- isPySpace models the ASCII whitespace class used by Python str.strip
and by the regex whitespace class. -/
def isPySpace (c : Char) : Bool :=
  c = ' ' || c = '\t' || c = '\n' || c = '\r' || c = '\x0b' || c = '\x0c'

/-- stripChars models Python str.strip(): remove leading and trailing
whitespace. -/
def stripChars (s : Chars) : Chars :=
  ((s.dropWhile isPySpace).reverse.dropWhile isPySpace).reverse

/-- splitOnChar models Python str.split(d) for a single-character
delimiter: the empty string splits to one empty field. -/
def splitOnChar (d : Char) : Chars → List Chars
  | [] => [[]]
  | c :: rest =>
    if c = d then [] :: splitOnChar d rest
    else
      match splitOnChar d rest with
      | [] => [[c]]
      | p :: ps => (c :: p) :: ps

/-- joinWith is the inverse serialization: interleave a delimiter between
fields, as the f-strings of the source do with the pipe character. -/
def joinWith (d : Char) : List Chars → Chars
  | [] => []
  | [f] => f
  | f :: g :: fs => f ++ d :: joinWith d (g :: fs)

/-- replaceAll models Python str.replace(pat, rep): replace every
non-overlapping occurrence of pat, scanning left to right and never
rescanning the replacement text. -/
def replaceAll (pat rep : Chars) : Chars → Chars
  | [] => []
  | c :: rest =>
    if pat.isPrefixOf (c :: rest) then
      rep ++ replaceAll pat rep (rest.drop (pat.length - 1))
    else c :: replaceAll pat rep rest
termination_by s => s.length
decreasing_by
  all_goals simp only [List.length_cons, List.length_drop]
  all_goals omega

/-- containsSub models Python substring membership (needle in hay). -/
def containsSub (needle : Chars) : Chars → Bool
  | [] => needle.isEmpty
  | c :: rest => needle.isPrefixOf (c :: rest) || containsSub needle rest

/-- errWsClose models the regex tail: zero or more whitespace characters
followed by a closing bracket. -/
def errWsClose : Chars → Bool
  | [] => false
  | c :: rest => if c = ']' then true else if isPySpace c then errWsClose rest else false

/-- errAt checks whether the bracketed-ERROR pattern matches at the start
of the string. -/
def errAt (s : Chars) : Bool :=
  (str "[ERROR").isPrefixOf s && errWsClose (s.drop 6)

/-- hasErrorMarker models re.search of the bracketed-ERROR pattern over a
log: the pattern matches at some position. -/
def hasErrorMarker : Chars → Bool
  | [] => false
  | c :: rest => errAt (c :: rest) || hasErrorMarker rest

/-- digitsValAux accumulates the value of a decimal digit run; it fails on
the first non-digit character. -/
def digitsValAux : Chars → Nat → Option Nat
  | [], acc => some acc
  | c :: rest, acc =>
    if c.isDigit then digitsValAux rest (acc * 10 + (c.toNat - 48)) else none

/-- digitsVal evaluates a non-empty all-digit string. -/
def digitsVal (s : Chars) : Option Nat :=
  if s = [] then none else digitsValAux s 0

/-- intOfStr models Python int(str) on ASCII input: strip whitespace,
allow one sign, then require a non-empty digit run; failure models the
ValueError the source catches. -/
def intOfStr (s : Chars) : Option Int :=
  match stripChars s with
  | '+' :: rest => (digitsVal rest).map (fun n => (n : Int))
  | '-' :: rest => (digitsVal rest).map (fun n => -(n : Int))
  | other => (digitsVal other).map (fun n => (n : Int))

/-- isDigitStr models Python str.isdigit() on ASCII input. -/
def isDigitStr (s : Chars) : Bool :=
  !s.isEmpty && s.all Char.isDigit

/-- basenameChars models os.path.basename: the part after the last
slash. -/
def basenameChars (s : Chars) : Chars :=
  (s.reverse.takeWhile (fun c => c ≠ '/')).reverse

/-- lexLe is lexicographic comparison of strings by code point, as Python
uses when sorting strings. -/
def lexLe : Chars → Chars → Bool
  | [], _ => true
  | _ :: _, [] => false
  | a :: as, b :: bs => if a = b then lexLe as bs else decide (a < b)

/-- insOrd inserts an element into a sorted list, before the first element
it compares less-or-equal to; used to model Python stable sorting. -/
def insOrd (le : α → α → Bool) (a : α) : List α → List α
  | [] => [a]
  | b :: rest => if le a b then a :: b :: rest else b :: insOrd le a rest

/-- insSort is stable insertion sort, modelling Python sorted and
list.sort (both stable). -/
def insSort (le : α → α → Bool) : List α → List α
  | [] => []
  | a :: rest => insOrd le a (insSort le rest)

/-- natDigitChar is the ASCII digit character for a value below ten. -/
def natDigitChar (n : Nat) : Char := Char.ofNat (48 + n)

/-- natToStrGo peels decimal digits from the right; the fuel argument is
always sufficient for the starting number. -/
def natToStrGo : Nat → Nat → Chars → Chars
  | 0, _, acc => acc
  | fuel + 1, n, acc =>
    if n < 10 then natDigitChar n :: acc
    else natToStrGo fuel (n / 10) (natDigitChar (n % 10) :: acc)

/-- natToStr models Python str on a natural number. -/
def natToStr (n : Nat) : Chars := natToStrGo (n + 1) n []

/-- intToStr models Python str on an integer. -/
def intToStr : Int → Chars
  | Int.ofNat n => natToStr n
  | Int.negSucc n => '-' :: natToStr (n + 1)

/-- delimPat is the pipe-delimited search pattern the source builds for
status substitution, as in content.replace of a pipe-wrapped status. -/
def delimPat (w : Chars) : Chars := '|' :: (w ++ ['|'])

/- ------------------------------------------------------------------ -/
/- Data model: the state directory, markers and logs                   -/
/- ------------------------------------------------------------------ -/

/-- FEntry is one file of the state directory: name plus content, where
none models a file whose open or read raises (the source catches the
exception). -/
structure FEntry where
  name : Chars
  content : Option Chars
deriving DecidableEq

/-- St is the mutable state the subsystem touches: state-directory
records (proc-*.state), exit-code markers (exit-SUBJECT.code files, keyed
here by subject) and log files (keyed by path). A marker or log value of
none models a file that exists but whose read raises. -/
structure St where
  files : List FEntry
  exitCodes : List (Chars × Option Chars)
  logs : List (Chars × Option Chars)
deriving DecidableEq

/-- alookup finds the value stored under a key. -/
def alookup (k : Chars) : List (Chars × α) → Option α
  | [] => none
  | (k2, v) :: rest => if k2 = k then some v else alookup k rest

/-- awrite overwrites the value under a key, creating it when absent, as
opening a file in mode w does. -/
def awrite (k : Chars) (v : α) : List (Chars × α) → List (Chars × α)
  | [] => [(k, v)]
  | (k2, v2) :: rest => if k2 = k then (k, v) :: rest else (k2, v2) :: awrite k v rest

/-- flookup finds a state-directory file by name. -/
def flookup (nm : Chars) : List FEntry → Option (Option Chars)
  | [] => none
  | e :: rest => if e.name = nm then some e.content else flookup nm rest

/-- fwrite overwrites a state-directory file by name, creating it when
absent. -/
def fwrite (nm c : Chars) : List FEntry → List FEntry
  | [] => [⟨nm, some c⟩]
  | e :: rest => if e.name = nm then ⟨nm, some c⟩ :: rest else e :: fwrite nm c rest

/-- isProcessAlive models is_process_alive: int(pid), then a kill-0
probe, with ValueError or any OSError reported as dead. The abstract
alive function stands for the outcome of the os.kill(pid, 0) probe. -/
def isProcessAlive (alive : Int → Bool) (pidStr : Chars) : Bool :=
  match intOfStr pidStr with
  | some n => alive n
  | none => false

/-- globProcMatch models the glob proc-*.state over the state dir. -/
def globProcMatch (nm : Chars) : Bool :=
  (str "proc-").isPrefixOf nm && (str ".state").isSuffixOf (nm.drop 5)

/-- globKillMatch models the glob proc-SUBJECT-*.state used by kill. -/
def globKillMatch (host nm : Chars) : Bool :=
  (str "proc-" ++ host ++ str "-").isPrefixOf nm &&
    (str ".state").isSuffixOf (nm.drop (str "proc-" ++ host ++ str "-").length)

/- ------------------------------------------------------------------ -/
/- list(): get_processes_json                                          -/
/- ------------------------------------------------------------------ -/

/-- ProcView is one element of the JSON listing built by
get_processes_json. -/
structure ProcView where
  pid : Int
  hostname : Chars
  mode : Chars
  started : Chars
  status : Chars
  logfile : Chars
deriving DecidableEq

/-- pidDisplay models int(pid) if pid.isdigit() else 0 in the listing. -/
def pidDisplay (s : Chars) : Int :=
  if isDigitStr s then (((digitsVal s).getD 0 : Nat) : Int) else 0

/-- exitNonZero models the exit-code check of get_processes_json: the
marker file for the subject exists, reads, and its stripped content is
neither empty nor the string 0. -/
def exitNonZero (exitCodes : List (Chars × Option Chars)) (hostname : Chars) : Bool :=
  match alookup hostname exitCodes with
  | some (some raw) => decide (stripChars raw ≠ [] ∧ stripChars raw ≠ str "0")
  | _ => false

/-- logErr models the log scan of get_processes_json: a non-empty logfile
path whose file exists, reads, and contains the bracketed-ERROR
pattern. -/
def logErr (logs : List (Chars × Option Chars)) (logfile : Chars) : Bool :=
  if logfile = [] then false
  else
    match alookup logfile logs with
    | some (some lc) => hasErrorMarker lc
    | _ => false

/-- classifyDead computes the reclassified status of a dead running
record: completed, upgraded to failed by a non-zero exit-code marker,
else by an error marker in the log. -/
def classifyDead (exitCodes logs : List (Chars × Option Chars))
    (hostname logfile : Chars) : Chars :=
  if exitNonZero exitCodes hostname then str "failed"
  else if logErr logs logfile then str "failed"
  else str "completed"

/-- processRecord is the loop body of get_processes_json for one state
file: parse, skip malformed or unreadable files, reclassify a dead
running record with a non-sentinel pid (persisting the rewritten
content), and emit the listing entry. -/
def processRecord (alive : Int → Bool) (exitCodes logs : List (Chars × Option Chars))
    (e : FEntry) : Option ProcView × FEntry :=
  match e.content with
  | none => (none, e)
  | some raw =>
    let content := stripChars raw
    let parts := splitOnChar '|' content
    if parts.length < 6 then (none, e)
    else
      let pid := parts.getD 0 []
      let hostname := parts.getD 1 []
      let mode := parts.getD 2 []
      let started := parts.getD 3 []
      let status := parts.getD 4 []
      let logfile := parts.getD 5 []
      if status = str "running" ∧ pid ≠ str "0" ∧ isProcessAlive alive pid = false then
        let newStatus := classifyDead exitCodes logs hostname logfile
        let newContent := replaceAll (delimPat (str "running")) (delimPat newStatus) content
        (some ⟨pidDisplay pid, hostname, mode, started, newStatus, basenameChars logfile⟩,
          ⟨e.name, some newContent⟩)
      else
        (some ⟨pidDisplay pid, hostname, mode, started, status, basenameChars logfile⟩, e)

/-- listEntry applies processRecord to files matched by the proc-*.state
glob and leaves every other file untouched and unreported. -/
def listEntry (alive : Int → Bool) (exitCodes logs : List (Chars × Option Chars))
    (e : FEntry) : Option ProcView × FEntry :=
  if globProcMatch e.name then processRecord alive exitCodes logs e else (none, e)

/-- statusRank is the primary sort key: running records first. -/
def statusRank (p : ProcView) : Nat := if p.status = str "running" then 0 else 1

/-- procLe is the first sort of get_processes_json: by rank, then by
start time ascending. -/
def procLe (p q : ProcView) : Bool :=
  if statusRank p = statusRank q then lexLe p.started q.started
  else decide (statusRank p < statusRank q)

/-- listOnce is get_processes_json: process every state file (the file
list order of St stands for the reverse-sorted glob order the source
enumerates), then return running records first with terminal records
ordered by start time descending, together with the updated store. -/
def listOnce (alive : Int → Bool) (st : St) : List ProcView × St :=
  let pairs := st.files.map (listEntry alive st.exitCodes st.logs)
  let procs := pairs.filterMap Prod.fst
  let sortedAll := insSort procLe procs
  let running := sortedAll.filter (fun p => decide (p.status = str "running"))
  let finished := sortedAll.filter (fun p => decide (¬ p.status = str "running"))
  let finishedSorted := insSort (fun a b => lexLe b.started a.started) finished
  (running ++ finishedSorted, { st with files := pairs.map Prod.snd })

/-- listIter is the store after some number of list calls. -/
def listIter (alive : Int → Bool) : Nat → St → St
  | 0, st => st
  | k + 1, st => listIter alive k (listOnce alive st).2

/- ------------------------------------------------------------------ -/
/- kill(): _api_backup_kill                                            -/
/- ------------------------------------------------------------------ -/

/-- KillRes is the HTTP outcome of _api_backup_kill. -/
inductive KillRes
  | killed
  | notFound
deriving DecidableEq

/-- killHit decides whether one state file is a record _api_backup_kill
acts on: name matches the subject glob, at least six fields, status
running, integer pid greater than zero, and a successful liveness probe.
A file whose read or whose int(pid) raises is skipped. -/
def killHit (alive : Int → Bool) (host : Chars) (e : FEntry) : Bool :=
  globKillMatch host e.name &&
    match e.content with
    | none => false
    | some raw =>
      let parts := splitOnChar '|' (stripChars raw)
      decide (6 ≤ parts.length) && decide (parts.getD 4 [] = str "running") &&
        match intOfStr (parts.getD 0 []) with
        | some pid => decide (0 < pid) && alive pid
        | none => false

/-- killNotice is the warning line appended to the job log before the
termination signal is sent. -/
def killNotice (now pidTxt : Chars) : Chars :=
  '\n' :: '[' ::
    (now ++ str "] [WARN ] Backup killed by user via dashboard (PID " ++ pidTxt ++ str ")\n")

/-- killApply performs the effect on a hit record: append the notice to
the job log when that file exists and is writable, and rewrite the
record's running token to killed. The termination signal itself acts
outside the modelled state. -/
def killApply (now : Chars) (e : FEntry) (logs : List (Chars × Option Chars)) :
    FEntry × List (Chars × Option Chars) :=
  match e.content with
  | none => (e, logs)
  | some raw =>
    let content := stripChars raw
    let parts := splitOnChar '|' content
    let logfile := parts.getD 5 []
    let pidTxt :=
      match intOfStr (parts.getD 0 []) with
      | some n => intToStr n
      | none => parts.getD 0 []
    let logs2 :=
      if logfile = [] then logs
      else
        match alookup logfile logs with
        | some (some lc) => awrite logfile (some (lc ++ killNotice now pidTxt)) logs
        | _ => logs
    (⟨e.name, some (replaceAll (delimPat (str "running")) (delimPat (str "killed")) content)⟩,
      logs2)

/-- killLoop is the scan of _api_backup_kill over the glob matches: the
first hit is rewritten (and its log annotated) and the scan returns;
with no hit nothing changes. -/
def killLoop (alive : Int → Bool) (host now : Chars) :
    List FEntry → List (Chars × Option Chars) →
      Option (List FEntry × List (Chars × Option Chars))
  | [], _ => none
  | e :: rest, logs =>
    if killHit alive host e then
      let r := killApply now e logs
      some (r.1 :: rest, r.2)
    else
      match killLoop alive host now rest logs with
      | some (rest2, logs2) => some (e :: rest2, logs2)
      | none => none

/-- apiBackupKill is _api_backup_kill: killed on the first running, live
record for the subject; otherwise a 404 not-found with no mutation. -/
def apiBackupKill (alive : Int → Bool) (host now : Chars) (st : St) : KillRes × St :=
  match killLoop alive host now st.files st.logs with
  | some (files2, logs2) => (KillRes.killed, { st with files := files2, logs := logs2 })
  | none => (KillRes.notFound, st)

/- ------------------------------------------------------------------ -/
/- launch(): _api_backup_start and run_backup                          -/
/- ------------------------------------------------------------------ -/

/-- mkStateName is the record key written by _api_backup_start:
proc-SUBJECT-TIMESTAMP.state. -/
def mkStateName (host ts : Chars) : Chars :=
  str "proc-" ++ host ++ str "-" ++ ts ++ str ".state"

/-- modeOf derives the mode string from the request's mode flags, as
_api_backup_start derives it from the opts string it builds. -/
def modeOf (filesOnly dbOnly : Bool) : Chars :=
  if filesOnly then str "files-only" else if dbOnly then str "db-only" else str "full"

/-- initialContent is the placeholder record written before the child is
spawned: pid 0, status running (line 1097 of the source). -/
def initialContent (host mode started logfile : Chars) : Chars :=
  joinWith '|' [str "0", host, mode, started, str "running", logfile]

/-- apiBackupStartInit is the part of _api_backup_start that runs before
the background thread starts: durably write the placeholder record. The
child process is spawned only afterwards, inside run_backup on the
thread. -/
def apiBackupStartInit (host ts mode started logfile : Chars) (st : St) : St :=
  let files2 := fwrite (mkStateName host ts) (initialContent host mode started logfile) st.files
  { st with files := files2 }

/-- WEvent is one durable write of the supervising run_backup thread. -/
inductive WEvent
  | exitMarker (subject content : Chars)
  | stateFile (nm content : Chars)
deriving DecidableEq

/-- applyWEvent applies one write to the state. -/
def applyWEvent (st : St) : WEvent → St
  | WEvent.exitMarker subject c =>
    { st with exitCodes := awrite subject (some c) st.exitCodes }
  | WEvent.stateFile nm c => { st with files := fwrite nm c st.files }

/-- runBackupExitTrace is the ordered list of writes run_backup performs
once proc.wait() returns (lines 1080-1091 of the source): first the
exit-code marker for the subject, then the terminal record rewrite. -/
def runBackupExitTrace (host ts mode started logfile : Chars) (pid : Nat)
    (exitCode : Int) : List WEvent :=
  [WEvent.exitMarker host (intToStr exitCode),
   WEvent.stateFile (mkStateName host ts)
     (joinWith '|' [natToStr pid, host, mode, started,
       (if exitCode = 0 then str "completed" else str "failed"), logfile])]

/-- runBackupOnExit folds the exit trace over the state in program
order. -/
def runBackupOnExit (host ts mode started logfile : Chars) (pid : Nat)
    (exitCode : Int) (st : St) : St :=
  (runBackupExitTrace host ts mode started logfile pid exitCode).foldl applyWEvent st

/- ------------------------------------------------------------------ -/
/- Reconciler: _reconcile_state_files                                  -/
/- ------------------------------------------------------------------ -/

/-- pass1Dead is the liveness verdict of the first reconciliation pass
for a running record: dead unless the pid string is all digits, positive,
and the kill-0 probe succeeds. -/
def pass1Dead (alive : Int → Bool) (pidStr : Chars) : Bool :=
  let pid : Nat := if isDigitStr pidStr then (digitsVal pidStr).getD 0 else 0
  !(decide (0 < pid) && alive (pid : Int))

/-- pass1File rewrites one state file as the first reconciliation pass
does: a parsed running record whose process is dead is rewritten from its
six parsed fields with status failed; every other file is untouched. -/
def pass1File (alive : Int → Bool) (e : FEntry) : FEntry :=
  if globProcMatch e.name then
    match e.content with
    | none => e
    | some raw =>
      let parts := splitOnChar '|' (stripChars raw)
      if parts.length < 6 then e
      else if parts.getD 4 [] ≠ str "running" then e
      else if pass1Dead alive (parts.getD 0 []) then
        ⟨e.name, some (joinWith '|' [parts.getD 0 [], parts.getD 1 [], parts.getD 2 [],
          parts.getD 3 [], str "failed", parts.getD 5 []])⟩
      else e
  else e

/-- pass1Codes fabricates the exit-code marker 137 for the subject of a
dead running record when no marker file exists for that subject yet. -/
def pass1Codes (alive : Int → Bool) (e : FEntry)
    (codes : List (Chars × Option Chars)) : List (Chars × Option Chars) :=
  if globProcMatch e.name then
    match e.content with
    | none => codes
    | some raw =>
      let parts := splitOnChar '|' (stripChars raw)
      if parts.length < 6 then codes
      else if parts.getD 4 [] ≠ str "running" then codes
      else if pass1Dead alive (parts.getD 0 []) then
        match alookup (parts.getD 1 []) codes with
        | none => awrite (parts.getD 1 []) (some (str "137")) codes
        | some _ => codes
      else codes
  else codes

/-- reconcilePass1 is the first pass of _reconcile_state_files: each
record is probed and rewritten independently of the others, while marker
creation threads through the scan in order. -/
def reconcilePass1 (alive : Int → Bool) (st : St) : St :=
  { st with files := st.files.map (pass1File alive),
            exitCodes := st.files.foldl (fun codes e => pass1Codes alive e codes) st.exitCodes }

/-- splitFirstToken models line.split(None, 1): the first whitespace
delimited token and the remainder with its leading whitespace removed. -/
def splitFirstToken (s : Chars) : Chars × Chars :=
  let s1 := s.dropWhile isPySpace
  let tok := s1.takeWhile (fun c => !isPySpace c)
  (tok, (s1.drop tok.length).dropWhile isPySpace)

/-- matchTmHost models re.search of the orphan pattern: the literal
executable name, one or more whitespace characters, then a captured
maximal non-whitespace run, tried at every start position from the
left. -/
def matchTmHost : Chars → Option Chars
  | [] => none
  | c :: rest =>
    if (str "timemachine.sh").isPrefixOf (c :: rest) then
      let after := (c :: rest).drop 14
      let afterWs := after.dropWhile isPySpace
      if after.length ≠ afterWs.length ∧ afterWs ≠ [] then
        some (afterWs.takeWhile (fun x => !isPySpace x))
      else matchTmHost rest
    else matchTmHost rest

/-- inferMode derives the mode from mode flags in the command line. -/
def inferMode (cmdline : Chars) : Chars :=
  if containsSub (str "--files-only") cmdline then str "files-only"
  else if containsSub (str "--db-only") cmdline then str "db-only"
  else str "full"

/-- latestLog picks the log the orphan pass records: the
backup-SUBJECT-*.log names sorted descending, first one, or empty when
none match. -/
def latestLog (host : Chars) (logNames : List Chars) : Chars :=
  let hits := logNames.filter (fun n =>
    (str "backup-" ++ host ++ str "-").isPrefixOf n &&
      (str ".log").isSuffixOf (n.drop (str "backup-" ++ host ++ str "-").length))
  match (insSort lexLe hits).reverse with
  | [] => []
  | n :: _ => n

/-- orphanName is the state-file name the orphan pass checks and writes:
proc-SUBJECT.state, with no timestamp component. -/
def orphanName (host : Chars) : Chars := str "proc-" ++ host ++ str ".state"

/-- pass2Line processes one ps output line of the orphan-discovery pass:
filter by the invocation signature, take pid and command line apart,
extract the subject, skip only when the file proc-SUBJECT.state exists,
parses to at least five fields and carries status running, and otherwise
(re-)write that file as a fresh running record. -/
def pass2Line (logNames : List Chars) (now : Chars) (files : List FEntry)
    (line : Chars) : List FEntry :=
  if containsSub (str "timemachine.sh") line && containsSub (str "--trigger") line then
    let sp := splitFirstToken (stripChars line)
    if sp.1 = [] ∨ sp.2 = [] then files
    else
      match matchTmHost sp.2 with
      | none => files
      | some host =>
        let skip :=
          match flookup (orphanName host) files with
          | some (some c) =>
            let parts := splitOnChar '|' (stripChars c)
            decide (5 ≤ parts.length) && decide (parts.getD 4 [] = str "running")
          | _ => false
        if skip then files
        else fwrite (orphanName host)
          (joinWith '|' [sp.1, host, inferMode sp.2, now, str "running",
            latestLog host logNames]) files
  else files

/-- reconcilePass2 is the orphan-discovery pass, folding over the ps
output lines in order; each fabricated record is visible to the skip
check of later lines. -/
def reconcilePass2 (logNames : List Chars) (now : Chars) (psLines : List Chars)
    (st : St) : St :=
  { st with files := psLines.foldl (pass2Line logNames now) st.files }

/- ------------------------------------------------------------------ -/
/- Derived readers used to state properties                            -/
/- ------------------------------------------------------------------ -/

/-- recFields parses a record file content exactly as every reader in the
source does: strip, then split on the pipe. -/
def recFields (raw : Chars) : List Chars := splitOnChar '|' (stripChars raw)

/-- recStatus is the status field of a record content. -/
def recStatus (raw : Chars) : Chars := (recFields raw).getD 4 []

/-- wellFormedEntry holds for files that contribute a listing entry: the
name matches the glob and the content reads and splits into at least six
fields. -/
def wellFormedEntry (e : FEntry) : Bool :=
  globProcMatch e.name &&
    match e.content with
    | none => false
    | some raw => decide (6 ≤ (recFields raw).length)

/-- runningLiveRecordFor is the semantic reading of a stored record for a
subject that is running with a live process: its name is a record key for
the subject, its content reads and parses to at least six fields, the
status field is running, and the pid field denotes a positive integer
whose liveness probe succeeds. -/
def runningLiveRecordFor (alive : Int → Bool) (host : Chars) (e : FEntry) : Prop :=
  globKillMatch host e.name = true ∧
  ∃ raw, e.content = some raw ∧ 6 ≤ (recFields raw).length ∧
    (recFields raw).getD 4 [] = str "running" ∧
    ∃ n : Int, intOfStr ((recFields raw).getD 0 []) = some n ∧ 0 < n ∧ alive n = true

/-- pass1Hits holds for files that make the first reconciliation pass
fabricate an exit-code marker for subject h: a parseable running record
for h whose process is dead. -/
def pass1Hits (alive : Int → Bool) (h : Chars) (e : FEntry) : Bool :=
  globProcMatch e.name &&
    match e.content with
    | none => false
    | some raw =>
      decide (6 ≤ (recFields raw).length) &&
        decide ((recFields raw).getD 4 [] = str "running") &&
        pass1Dead alive ((recFields raw).getD 0 []) &&
        decide ((recFields raw).getD 1 [] = h)

/- ------------------------------------------------------------------ -/
/- Split / join / replace lemmas                                       -/
/- ------------------------------------------------------------------ -/

theorem splitOnChar_ne_nil (d : Char) (s : Chars) : splitOnChar d s ≠ [] := by
  induction s with
  | nil => simp [splitOnChar]
  | cons c rest ih =>
    simp only [splitOnChar]
    by_cases h : c = d
    · simp [h]
    · simp only [if_neg h]
      cases hs : splitOnChar d rest with
      | nil => simp
      | cons p ps => simp

theorem joinWith_splitOnChar (d : Char) (s : Chars) :
    joinWith d (splitOnChar d s) = s := by
  induction s with
  | nil => rfl
  | cons c rest ih =>
    simp only [splitOnChar]
    by_cases h : c = d
    · subst h
      simp only [if_pos rfl]
      cases hs : splitOnChar c rest with
      | nil => exact absurd hs (splitOnChar_ne_nil c rest)
      | cons p ps =>
        rw [hs] at ih
        simp only [joinWith, List.nil_append]
        rw [ih]
    · simp only [if_neg h]
      cases hs : splitOnChar d rest with
      | nil => exact absurd hs (splitOnChar_ne_nil d rest)
      | cons p ps =>
        rw [hs] at ih
        cases ps with
        | nil => simp only [joinWith] at ih ⊢; rw [ih]
        | cons q qs =>
          simp only [joinWith, List.cons_append] at ih ⊢
          rw [ih]

theorem splitOnChar_no_delim (d : Char) (s : Chars) :
    ∀ p ∈ splitOnChar d s, d ∉ p := by
  induction s with
  | nil => intro p hp; simp [splitOnChar] at hp; simp [hp]
  | cons c rest ih =>
    intro p hp
    simp only [splitOnChar] at hp
    by_cases h : c = d
    · rw [if_pos h] at hp
      rcases List.mem_cons.mp hp with h1 | h1
      · simp [h1]
      · exact ih p h1
    · rw [if_neg h] at hp
      cases hs : splitOnChar d rest with
      | nil => exact absurd hs (splitOnChar_ne_nil d rest)
      | cons q qs =>
        rw [hs] at hp
        rcases List.mem_cons.mp hp with h1 | h1
        · subst h1
          intro hmem
          rcases List.mem_cons.mp hmem with h2 | h2
          · exact h h2.symm
          · exact ih q (hs ▸ List.mem_cons_self q qs) h2
        · exact ih p (hs ▸ List.mem_cons_of_mem q h1)

theorem splitOnChar_of_no_delim (d : Char) (f : Chars) (h : d ∉ f) :
    splitOnChar d f = [f] := by
  induction f with
  | nil => rfl
  | cons c rest ih =>
    have hc : ¬ c = d := fun hcd => h (by simp [hcd])
    have hr := ih (fun hm => h (List.mem_cons_of_mem _ hm))
    simp only [splitOnChar, if_neg hc, hr]

theorem splitOnChar_append_delim (d : Char) (f t : Chars) (h : d ∉ f) :
    splitOnChar d (f ++ d :: t) = f :: splitOnChar d t := by
  induction f with
  | nil => simp [splitOnChar]
  | cons c rest ih =>
    have hc : ¬ c = d := fun hcd => h (by simp [hcd])
    have hr := ih (fun hm => h (List.mem_cons_of_mem _ hm))
    simp only [List.cons_append, splitOnChar, if_neg hc, List.append_eq, hr]

theorem splitOnChar_joinWith (d : Char) (fs : List Chars) (hne : fs ≠ [])
    (h : ∀ f ∈ fs, d ∉ f) : splitOnChar d (joinWith d fs) = fs := by
  induction fs with
  | nil => exact absurd rfl hne
  | cons f fs ih =>
    cases fs with
    | nil => exact splitOnChar_of_no_delim d f (h f (List.mem_cons_self f []))
    | cons g gs =>
      have hjoin : joinWith d (f :: g :: gs) = f ++ d :: joinWith d (g :: gs) := rfl
      rw [hjoin, splitOnChar_append_delim d f _ (h f (List.mem_cons_self _ _))]
      rw [ih (by simp) (fun x hx => h x (List.mem_cons_of_mem f hx))]

theorem replaceAll_nil (pat rep : Chars) : replaceAll pat rep [] = [] := by
  simp [replaceAll]

theorem replaceAll_cons_pos (pat rep : Chars) (c : Char) (rest : Chars)
    (h : pat.isPrefixOf (c :: rest) = true) :
    replaceAll pat rep (c :: rest) =
      rep ++ replaceAll pat rep (rest.drop (pat.length - 1)) := by
  rw [replaceAll]
  simp [h]

theorem replaceAll_cons_neg (pat rep : Chars) (c : Char) (rest : Chars)
    (h : pat.isPrefixOf (c :: rest) = false) :
    replaceAll pat rep (c :: rest) = c :: replaceAll pat rep rest := by
  rw [replaceAll]
  simp [h]

theorem not_isPrefixOf_field (w : Chars) : ∀ f t : Chars, '|' ∉ w → '|' ∉ f →
    f ≠ w → (w ++ ['|']).isPrefixOf (f ++ '|' :: t) = false := by
  induction w with
  | nil =>
    intro f t _ hf hne
    cases f with
    | nil => exact absurd rfl hne
    | cons c f2 =>
      have hc : ('|' : Char) ≠ c := fun h => hf (h ▸ List.mem_cons_self _ _)
      simp only [List.nil_append, List.cons_append, List.isPrefixOf]
      simp [hc]
  | cons a w2 ih =>
    intro f t hw hf hne
    cases f with
    | nil =>
      have ha : a ≠ '|' := fun h => hw (by simp [h])
      simp only [List.cons_append, List.nil_append, List.isPrefixOf]
      simp [ha]
    | cons c f2 =>
      simp only [List.cons_append, List.isPrefixOf]
      by_cases hac : a = c
      · subst hac
        have h1 : '|' ∉ w2 := fun h => hw (List.mem_cons_of_mem _ h)
        have h2 : '|' ∉ f2 := fun h => hf (List.mem_cons_of_mem _ h)
        have h3 : f2 ≠ w2 := fun h => hne (by rw [h])
        simp [ih f2 t h1 h2 h3]
      · simp [hac]

theorem replaceAll_nopipe_append (w2 rep : Chars) : ∀ f t : Chars, '|' ∉ f →
    replaceAll ('|' :: w2) rep (f ++ t) = f ++ replaceAll ('|' :: w2) rep t := by
  intro f
  induction f with
  | nil => intro t _; rfl
  | cons c f2 ih =>
    intro t hf
    have hc : ('|' : Char) ≠ c := fun h => hf (h ▸ List.mem_cons_self _ _)
    have hpre : (('|' :: w2)).isPrefixOf (c :: (f2 ++ t)) = false := by
      simp only [List.isPrefixOf]
      simp [hc]
    rw [List.cons_append, replaceAll_cons_neg _ _ _ _ hpre,
        ih t (fun h => hf (List.mem_cons_of_mem _ h))]
    simp

theorem replaceAll_self_append (w2 rep t : Chars) :
    replaceAll ('|' :: w2) rep (('|' :: w2) ++ t) =
      rep ++ replaceAll ('|' :: w2) rep t := by
  have hpre : ('|' :: w2).isPrefixOf ('|' :: (w2 ++ t)) = true := by
    rw [ List.isPrefixOf_iff_prefix]
    simp
  rw [List.cons_append, replaceAll_cons_pos _ _ _ _ hpre]
  congr 1
  simp only [List.length_cons, Nat.add_sub_cancel]
  rw [List.drop_left w2 t]

theorem replaceAll_skip_field (w rep f t : Chars) (hw : '|' ∉ w) (hf : '|' ∉ f)
    (hne : f ≠ w) :
    replaceAll (delimPat w) rep ('|' :: (f ++ '|' :: t)) =
      '|' :: (f ++ replaceAll (delimPat w) rep ('|' :: t)) := by
  have hpre : (delimPat w).isPrefixOf ('|' :: (f ++ '|' :: t)) = false := by
    simp only [delimPat, List.isPrefixOf]
    simp [not_isPrefixOf_field w f t hw hf hne]
  rw [replaceAll_cons_neg _ _ _ _ hpre]
  have := replaceAll_nopipe_append (w ++ ['|']) rep f ('|' :: t) hf
  simp only [delimPat]
  rw [this]

theorem replaceAll_at_field (w rep t : Chars) :
    replaceAll (delimPat w) rep ('|' :: (w ++ '|' :: t)) =
      rep ++ replaceAll (delimPat w) rep t := by
  have hshape : '|' :: (w ++ '|' :: t) = ('|' :: (w ++ ['|'])) ++ t := by
    simp
  rw [hshape]
  simp only [delimPat]
  exact replaceAll_self_append (w ++ ['|']) rep t

theorem joinWith_six (d : Char) (a b c e f g : Chars) :
    joinWith d [a, b, c, e, f, g] =
      a ++ d :: (b ++ d :: (c ++ d :: (e ++ d :: (f ++ d :: g)))) := by
  simp [joinWith]

theorem replaceAll_sixFields (f0 f1 f2 f3 f5 w v : Chars)
    (hw : '|' ∉ w)
    (h0 : '|' ∉ f0) (h1 : '|' ∉ f1) (h2 : '|' ∉ f2) (h3 : '|' ∉ f3)
    (h5 : '|' ∉ f5)
    (n1 : f1 ≠ w) (n2 : f2 ≠ w) (n3 : f3 ≠ w) :
    replaceAll (delimPat w) (delimPat v) (joinWith '|' [f0, f1, f2, f3, w, f5]) =
      joinWith '|' [f0, f1, f2, f3, v, f5] := by
  rw [joinWith_six, joinWith_six]
  have hnp := replaceAll_nopipe_append (w ++ ['|']) (delimPat v) f0
    ('|' :: (f1 ++ '|' :: (f2 ++ '|' :: (f3 ++ '|' :: (w ++ '|' :: f5))))) h0
  simp only [delimPat] at hnp ⊢
  rw [hnp]
  have s1 := replaceAll_skip_field w (delimPat v) f1
    (f2 ++ '|' :: (f3 ++ '|' :: (w ++ '|' :: f5))) hw h1 n1
  simp only [delimPat] at s1
  rw [s1]
  have s2 := replaceAll_skip_field w (delimPat v) f2
    (f3 ++ '|' :: (w ++ '|' :: f5)) hw h2 n2
  simp only [delimPat] at s2
  rw [s2]
  have s3 := replaceAll_skip_field w (delimPat v) f3
    (w ++ '|' :: f5) hw h3 n3
  simp only [delimPat] at s3
  rw [s3]
  have s4 := replaceAll_at_field w (delimPat v) f5
  simp only [delimPat] at s4
  rw [s4]
  have s5 := replaceAll_nopipe_append (w ++ ['|']) ('|' :: (v ++ ['|'])) f5 [] h5
  rw [List.append_nil] at s5
  rw [s5, replaceAll_nil, List.append_nil]
  simp

/- ------------------------------------------------------------------ -/
/- Strip and digit lemmas                                              -/
/- ------------------------------------------------------------------ -/

theorem dropWhile_keep_append (p : Char → Bool) (a b : Chars)
    (ha : a.dropWhile p = a) (hb : b.dropWhile p = b) :
    (a ++ b).dropWhile p = a ++ b := by
  cases a with
  | nil => simpa using hb
  | cons c a2 =>
    have hc : p c = false := by
      by_contra hpc
      have hpc2 : p c = true := by revert hpc; cases p c <;> simp
      rw [List.dropWhile_cons, hpc2] at ha
      simp only [if_true] at ha
      have hlen := congrArg List.length ha
      have hle := (List.dropWhile_suffix (l := a2) p).length_le
      simp only [List.length_cons] at hlen
      omega
    rw [List.cons_append, List.dropWhile_cons, hc]
    simp

theorem stripChars_eq_self (s : Chars) (h1 : s.dropWhile isPySpace = s)
    (h2 : s.reverse.dropWhile isPySpace = s.reverse) : stripChars s = s := by
  unfold stripChars
  rw [h1, h2, List.reverse_reverse]

theorem joinWith_six_last (f0 f1 f2 f3 v f5 : Chars) :
    joinWith '|' [f0, f1, f2, f3, v, f5] =
      (f0 ++ '|' :: (f1 ++ '|' :: (f2 ++ '|' :: (f3 ++ '|' :: v)))) ++ '|' :: f5 := by
  rw [joinWith_six]
  simp [List.append_assoc]

theorem stripChars_join6 (f0 f1 f2 f3 v f5 : Chars)
    (h0 : f0.dropWhile isPySpace = f0)
    (h5 : f5.reverse.dropWhile isPySpace = f5.reverse) :
    stripChars (joinWith '|' [f0, f1, f2, f3, v, f5]) =
      joinWith '|' [f0, f1, f2, f3, v, f5] := by
  apply stripChars_eq_self
  · rw [joinWith_six]
    apply dropWhile_keep_append _ _ _ h0
    rw [List.dropWhile_cons]
    simp [isPySpace]
  · rw [joinWith_six_last, List.reverse_append, List.reverse_cons, List.append_assoc]
    apply dropWhile_keep_append _ _ _ h5
    rw [List.singleton_append, List.dropWhile_cons]
    simp [isPySpace]

theorem natDigitChar_isDigit (k : Nat) (hk : k < 10) :
    (natDigitChar k).isDigit = true := by
  unfold natDigitChar
  interval_cases k <;> decide

theorem natToStrGo_all_digits (fuel : Nat) : ∀ (n : Nat) (acc : Chars),
    (∀ c ∈ acc, c.isDigit = true) → ∀ c ∈ natToStrGo fuel n acc, c.isDigit = true := by
  induction fuel with
  | zero => intro n acc hacc c hc; exact hacc c hc
  | succ f ih =>
    intro n acc hacc c hc
    simp only [natToStrGo] at hc
    by_cases hn : n < 10
    · rw [if_pos hn] at hc
      rcases List.mem_cons.mp hc with h | h
      · exact h ▸ natDigitChar_isDigit n hn
      · exact hacc c h
    · rw [if_neg hn] at hc
      refine ih (n / 10) _ ?_ c hc
      intro x hx
      rcases List.mem_cons.mp hx with h | h
      · exact h ▸ natDigitChar_isDigit (n % 10) (Nat.mod_lt n (by omega))
      · exact hacc x h

theorem natToStrGo_ne_nil (fuel : Nat) : ∀ (n : Nat) (acc : Chars),
    natToStrGo (fuel + 1) n acc ≠ [] := by
  induction fuel with
  | zero =>
    intro n acc
    simp only [natToStrGo]
    by_cases hn : n < 10
    · simp [hn]
    · simp [hn, natToStrGo]
  | succ f ih =>
    intro n acc
    simp only [natToStrGo]
    by_cases hn : n < 10
    · simp [hn]
    · rw [if_neg hn]
      exact ih (n / 10) _

theorem natToStr_all_digits (n : Nat) : ∀ c ∈ natToStr n, c.isDigit = true :=
  natToStrGo_all_digits (n + 1) n [] (by intro c hc; cases hc)

theorem natToStr_ne_nil (n : Nat) : natToStr n ≠ [] :=
  natToStrGo_ne_nil n n []

theorem natToStr_no_pipe (n : Nat) : '|' ∉ natToStr n := by
  intro h
  have hd := natToStr_all_digits n '|' h
  exact absurd hd (by decide)

theorem isPySpace_of_isDigit (c : Char) (h : c.isDigit = true) :
    isPySpace c = false := by
  unfold isPySpace
  have h1 : c ≠ ' ' := by intro he; rw [he] at h; exact absurd h (by decide)
  have h2 : c ≠ '\t' := by intro he; rw [he] at h; exact absurd h (by decide)
  have h3 : c ≠ '\n' := by intro he; rw [he] at h; exact absurd h (by decide)
  have h4 : c ≠ '\r' := by intro he; rw [he] at h; exact absurd h (by decide)
  have h5 : c ≠ '\x0b' := by intro he; rw [he] at h; exact absurd h (by decide)
  have h6 : c ≠ '\x0c' := by intro he; rw [he] at h; exact absurd h (by decide)
  simp [h1, h2, h3, h4, h5, h6]

theorem natToStr_dropWhile (n : Nat) :
    (natToStr n).dropWhile isPySpace = natToStr n := by
  cases hs : natToStr n with
  | nil => rfl
  | cons c rest =>
    have hc : c.isDigit = true := by
      apply natToStr_all_digits n c
      rw [hs]
      exact List.mem_cons_self c rest
    rw [List.dropWhile_cons, isPySpace_of_isDigit c hc]
    simp

/- ------------------------------------------------------------------ -/
/- Sorting and counting lemmas                                         -/
/- ------------------------------------------------------------------ -/

theorem insOrd_mem (le : α → α → Bool) (a x : α) (l : List α) :
    x ∈ insOrd le a l ↔ x = a ∨ x ∈ l := by
  induction l with
  | nil => simp [insOrd]
  | cons b rest ih =>
    simp only [insOrd]
    by_cases h : le a b = true
    · simp only [if_pos h, List.mem_cons]
    · simp only [if_neg h, List.mem_cons, ih]
      tauto

theorem insSort_mem (le : α → α → Bool) (x : α) (l : List α) :
    x ∈ insSort le l ↔ x ∈ l := by
  induction l with
  | nil => simp [insSort]
  | cons a rest ih =>
    have h : insSort le (a :: rest) = insOrd le a (insSort le rest) := rfl
    rw [h, insOrd_mem, ih, List.mem_cons]

theorem insOrd_length (le : α → α → Bool) (a : α) (l : List α) :
    (insOrd le a l).length = l.length + 1 := by
  induction l with
  | nil => rfl
  | cons b rest ih =>
    simp only [insOrd]
    by_cases h : le a b = true
    · simp [h]
    · simp [h, ih]

theorem insSort_length (le : α → α → Bool) (l : List α) :
    (insSort le l).length = l.length := by
  induction l with
  | nil => rfl
  | cons a rest ih => simp [insSort, insOrd_length, ih]

theorem length_filter_partition (p : α → Bool) (l : List α) :
    (l.filter p).length + (l.filter (fun x => !p x)).length = l.length := by
  induction l with
  | nil => rfl
  | cons a rest ih =>
    by_cases h : p a = true
    · simp only [List.filter_cons, h, Bool.not_true, if_true, if_false,
        Bool.false_eq_true, List.length_cons]
      omega
    · have h2 : p a = false := by revert h; cases p a <;> simp
      simp only [List.filter_cons, h2, Bool.not_false, Bool.false_eq_true, if_false,
        if_true, List.length_cons]
      omega

theorem length_filterMap_fst_map (g : FEntry → Option ProcView × FEntry)
    (files : List FEntry) :
    ((files.map g).filterMap Prod.fst).length =
      files.countP (fun e => ((g e).1).isSome) := by
  rw [List.filterMap_map]
  induction files with
  | nil => rfl
  | cons e rest ih =>
    simp only [List.filterMap_cons, List.countP_cons, Function.comp]
    cases h : (g e).1 with
    | none => simp [h, ih]
    | some p => simp [h, ih]

theorem listEntry_fst_isSome (alive : Int → Bool) (ec lg : List (Chars × Option Chars))
    (e : FEntry) : ((listEntry alive ec lg e).1).isSome = wellFormedEntry e := by
  unfold listEntry wellFormedEntry processRecord recFields
  cases hc : e.content with
  | none => simp
  | some raw =>
    by_cases hg : globProcMatch e.name = true
    · by_cases h6 : (splitOnChar '|' (stripChars raw)).length < 6
      · simp [hg, h6, Nat.not_le.mpr h6]
      · simp only [hg, if_true, if_neg h6, decide_eq_true (Nat.not_lt.mp h6),
          Bool.and_true, Bool.true_and]
        split <;> simp
    · simp [hg]

theorem listOnce_length (alive : Int → Bool) (st : St) :
    (listOnce alive st).1.length = st.files.countP wellFormedEntry := by
  unfold listOnce
  simp only [List.length_append]
  rw [insSort_length]
  have hpart := length_filter_partition (fun p => decide (p.status = str "running"))
    (insSort procLe ((st.files.map (listEntry alive st.exitCodes st.logs)).filterMap Prod.fst))
  have hnot : (fun p : ProcView => decide (¬ p.status = str "running")) =
      (fun p : ProcView => !(decide (p.status = str "running"))) := by
    funext p
    simp
  rw [hnot, hpart, insSort_length, length_filterMap_fst_map]
  apply List.countP_congr
  intro e _
  simp [listEntry_fst_isSome alive st.exitCodes st.logs e]

theorem mem_listOnce (alive : Int → Bool) (st : St) (e : FEntry) (p : ProcView)
    (hmem : e ∈ st.files)
    (hp : (listEntry alive st.exitCodes st.logs e).1 = some p) :
    p ∈ (listOnce alive st).1 := by
  unfold listOnce
  simp only [List.mem_append]
  have hproc : p ∈ (st.files.map (listEntry alive st.exitCodes st.logs)).filterMap Prod.fst :=
    List.mem_filterMap.mpr ⟨listEntry alive st.exitCodes st.logs e,
      List.mem_map_of_mem _ hmem, hp⟩
  have hsorted := (insSort_mem procLe p _).mpr hproc
  by_cases hst : p.status = str "running"
  · exact Or.inl (List.mem_filter.mpr ⟨hsorted, by simp [hst]⟩)
  · refine Or.inr ((insSort_mem _ p _).mpr (List.mem_filter.mpr ⟨hsorted, ?_⟩))
    simp [hst]

theorem listOnce_files_getElem (alive : Int → Bool) (st : St) (i : Nat) :
    (listOnce alive st).2.files[i]? =
      (st.files[i]?).map (fun e => (listEntry alive st.exitCodes st.logs e).2) := by
  unfold listOnce
  simp only [List.getElem?_map]
  cases st.files[i]? <;> simp

theorem listOnce_exitCodes (alive : Int → Bool) (st : St) :
    (listOnce alive st).2.exitCodes = st.exitCodes := rfl

theorem listOnce_logs (alive : Int → Bool) (st : St) :
    (listOnce alive st).2.logs = st.logs := rfl

/- ------------------------------------------------------------------ -/
/- Preservation lemmas for list()                                      -/
/- ------------------------------------------------------------------ -/

theorem processRecord_snd_untouched (alive : Int → Bool)
    (ec lg : List (Chars × Option Chars)) (e : FEntry)
    (h : ∀ raw, e.content = some raw →
      (recFields raw).length < 6 ∨
      ¬ ((recFields raw).getD 4 [] = str "running" ∧ (recFields raw).getD 0 [] ≠ str "0" ∧
        isProcessAlive alive ((recFields raw).getD 0 []) = false)) :
    (processRecord alive ec lg e).2 = e := by
  unfold processRecord
  cases hc : e.content with
  | none => rfl
  | some raw =>
    rcases h raw hc with h6 | hng
    · simp only [recFields] at h6
      simp [h6]
    · simp only [recFields] at hng
      by_cases h6 : (splitOnChar '|' (stripChars raw)).length < 6
      · simp [h6]
      · simp only [if_neg h6]
        split
        next hguard =>
          exfalso
          apply hng
          simpa using hguard
        next => rfl

theorem listEntry_snd_untouched (alive : Int → Bool)
    (ec lg : List (Chars × Option Chars)) (e : FEntry)
    (h : ∀ raw, e.content = some raw →
      (recFields raw).length < 6 ∨
      ¬ ((recFields raw).getD 4 [] = str "running" ∧ (recFields raw).getD 0 [] ≠ str "0" ∧
        isProcessAlive alive ((recFields raw).getD 0 []) = false)) :
    (listEntry alive ec lg e).2 = e := by
  unfold listEntry
  by_cases hg : globProcMatch e.name = true
  · simp only [hg, if_true]
    exact processRecord_snd_untouched alive ec lg e h
  · simp [hg]

theorem listIter_preserve (alive : Int → Bool) (i : Nat) (e : FEntry)
    (h : ∀ raw, e.content = some raw →
      (recFields raw).length < 6 ∨
      ¬ ((recFields raw).getD 4 [] = str "running" ∧ (recFields raw).getD 0 [] ≠ str "0" ∧
        isProcessAlive alive ((recFields raw).getD 0 []) = false)) :
    ∀ (k : Nat) (st : St), st.files[i]? = some e →
      (listIter alive k st).files[i]? = some e := by
  intro k
  induction k with
  | zero =>
    intro st hget
    have h0 : listIter alive 0 st = st := rfl
    rw [h0]
    exact hget
  | succ k2 ih =>
    intro st hget
    have hstep : (listOnce alive st).2.files[i]? = some e := by
      rw [listOnce_files_getElem, hget]
      simp [listEntry_snd_untouched alive st.exitCodes st.logs e h]
    have h2 : listIter alive (k2 + 1) st = listIter alive k2 (listOnce alive st).2 := rfl
    rw [h2]
    exact ih (listOnce alive st).2 hstep

/- ------------------------------------------------------------------ -/
/- kill() scan lemmas                                                  -/
/- ------------------------------------------------------------------ -/

theorem killLoop_none (alive : Int → Bool) (host now : Chars) :
    ∀ (files : List FEntry) (logs : List (Chars × Option Chars)),
      (∀ e ∈ files, killHit alive host e = false) →
      killLoop alive host now files logs = none := by
  intro files
  induction files with
  | nil => intro logs _; rfl
  | cons e rest ih =>
    intro logs hall
    have he : killHit alive host e = false := hall e (List.mem_cons_self e rest)
    have hrest := ih logs (fun x hx => hall x (List.mem_cons_of_mem _ hx))
    simp only [killLoop, he, Bool.false_eq_true, if_false, hrest]

theorem killLoop_found (alive : Int → Bool) (host now : Chars) :
    ∀ (pre : List FEntry) (e : FEntry) (post : List FEntry)
      (logs : List (Chars × Option Chars)),
      (∀ x ∈ pre, killHit alive host x = false) →
      killHit alive host e = true →
      killLoop alive host now (pre ++ e :: post) logs =
        some (pre ++ (killApply now e logs).1 :: post, (killApply now e logs).2) := by
  intro pre
  induction pre with
  | nil =>
    intro e post logs _ hhit
    simp only [List.nil_append, killLoop, hhit, if_true]
  | cons x pre2 ih =>
    intro e post logs hall hhit
    have hx : killHit alive host x = false := hall x (List.mem_cons_self x pre2)
    have hrest := ih e post logs (fun y hy => hall y (List.mem_cons_of_mem _ hy)) hhit
    simp only [List.cons_append, killLoop, hx, Bool.false_eq_true, if_false,
      List.append_eq, hrest]

/- ------------------------------------------------------------------ -/
/- Association list and write lemmas                                   -/
/- ------------------------------------------------------------------ -/

theorem alookup_awrite_self (k : Chars) (v : α) (l : List (Chars × α)) :
    alookup k (awrite k v l) = some v := by
  induction l with
  | nil => simp [awrite, alookup]
  | cons p rest ih =>
    rcases p with ⟨k2, v2⟩
    by_cases h : k2 = k
    · simp [awrite, alookup, h]
    · simp [awrite, alookup, h, ih]

theorem alookup_awrite_ne (k k2 : Chars) (v : α) (l : List (Chars × α))
    (h : k2 ≠ k) : alookup k (awrite k2 v l) = alookup k l := by
  induction l with
  | nil => simp [awrite, alookup, h]
  | cons p rest ih =>
    rcases p with ⟨k3, v3⟩
    by_cases h3 : k3 = k2
    · simp [awrite, alookup, h3, h]
    · by_cases h4 : k3 = k
      · simp [awrite, alookup, h3, h4, Ne.symm h]
      · simp [awrite, alookup, h3, h4, ih]

theorem fwrite_fresh (nm c : Chars) (files : List FEntry)
    (h : flookup nm files = none) :
    fwrite nm c files = files ++ [⟨nm, some c⟩] := by
  induction files with
  | nil => rfl
  | cons e rest ih =>
    unfold flookup at h
    by_cases he : e.name = nm
    · simp [he] at h
    · simp only [he, if_false] at h
      simp only [fwrite, he, if_false]
      rw [ih h]
      simp

/- ------------------------------------------------------------------ -/
/- Reconciler pass 1 lemmas                                            -/
/- ------------------------------------------------------------------ -/

theorem pass1Codes_cases (alive : Int → Bool) (e : FEntry)
    (codes : List (Chars × Option Chars)) :
    pass1Codes alive e codes = codes ∨
      ∃ h1, alookup h1 codes = none ∧ pass1Hits alive h1 e = true ∧
        pass1Codes alive e codes = awrite h1 (some (str "137")) codes := by
  unfold pass1Codes
  by_cases hg : globProcMatch e.name = true
  · simp only [hg, if_true]
    cases hc : e.content with
    | none => exact Or.inl rfl
    | some raw =>
      dsimp only
      by_cases h6 : (splitOnChar '|' (stripChars raw)).length < 6
      · rw [if_pos h6]
        exact Or.inl rfl
      · rw [if_neg h6]
        by_cases hrun : (splitOnChar '|' (stripChars raw)).getD 4 [] ≠ str "running"
        · rw [if_pos hrun]
          exact Or.inl rfl
        · rw [if_neg hrun]
          by_cases hdead : pass1Dead alive ((splitOnChar '|' (stripChars raw)).getD 0 []) = true
          · simp only [hdead, if_true]
            cases hl : alookup ((splitOnChar '|' (stripChars raw)).getD 1 []) codes with
            | none =>
              refine Or.inr ⟨(splitOnChar '|' (stripChars raw)).getD 1 [], hl, ?_, rfl⟩
              unfold pass1Hits recFields
              rw [hc]
              have h6b : 6 ≤ (splitOnChar '|' (stripChars raw)).length := Nat.not_lt.mp h6
              have hrun2 : (splitOnChar '|' (stripChars raw)).getD 4 [] = str "running" :=
                not_not.mp hrun
              simp only [hg, Bool.true_and, Bool.and_eq_true, decide_eq_true_eq]
              exact ⟨⟨⟨h6b, hrun2⟩, hdead⟩, trivial⟩
            | some v => exact Or.inl rfl
          · have hd2 : pass1Dead alive ((splitOnChar '|' (stripChars raw)).getD 0 []) = false := by
              revert hdead
              cases pass1Dead alive ((splitOnChar '|' (stripChars raw)).getD 0 []) <;> simp
            rw [hd2]
            simp only [Bool.false_eq_true, if_false]
            exact Or.inl trivial
  · simp only [hg, if_false]
    exact Or.inl rfl

theorem pass1Codes_reach (alive : Int → Bool) (h : Chars) (e : FEntry)
    (codes : List (Chars × Option Chars)) (hhit : pass1Hits alive h e = true)
    (hnone : alookup h codes = none) :
    alookup h (pass1Codes alive e codes) = some (some (str "137")) := by
  unfold pass1Hits recFields at hhit
  cases hc : e.content with
  | none =>
    rw [hc] at hhit
    simp at hhit
  | some raw =>
    rw [hc] at hhit
    simp only [Bool.and_eq_true, decide_eq_true_eq] at hhit
    obtain ⟨hg, ⟨⟨h6, hrun⟩, hdead⟩, hsubj⟩ := hhit
    unfold pass1Codes
    rw [hc]
    simp only [hg, if_true, if_neg (Nat.not_lt.mpr h6), if_neg (not_not_intro hrun),
      hdead, if_true]
    rw [hsubj, hnone]
    exact alookup_awrite_self h (some (str "137")) codes

theorem pass1_fold_preserve (alive : Int → Bool) (files : List FEntry) :
    ∀ (codes : List (Chars × Option Chars)) (h2 : Chars) (v : Option Chars),
      alookup h2 codes = some v →
      alookup h2 (files.foldl (fun cs e => pass1Codes alive e cs) codes) = some v := by
  induction files with
  | nil => intro codes h2 v hv; exact hv
  | cons e rest ih =>
    intro codes h2 v hv
    simp only [List.foldl_cons]
    apply ih
    rcases pass1Codes_cases alive e codes with hc | ⟨h1, hnone, _, hc⟩
    · rw [hc]; exact hv
    · rw [hc]
      have hne : h1 ≠ h2 := by
        intro he
        rw [he] at hnone
        rw [hnone] at hv
        cases hv
      rw [alookup_awrite_ne h2 h1 _ codes hne]
      exact hv

theorem pass1_fold_reach (alive : Int → Bool) (h : Chars) (files : List FEntry) :
    ∀ (codes : List (Chars × Option Chars)),
      alookup h codes = none →
      (∃ e ∈ files, pass1Hits alive h e = true) →
      alookup h (files.foldl (fun cs e => pass1Codes alive e cs) codes) =
        some (some (str "137")) := by
  induction files with
  | nil =>
    intro codes _ hex
    rcases hex with ⟨e, he, _⟩
    cases he
  | cons e0 rest ih =>
    intro codes hnone hex
    simp only [List.foldl_cons]
    by_cases hhit : pass1Hits alive h e0 = true
    · have h137 := pass1Codes_reach alive h e0 codes hhit hnone
      exact pass1_fold_preserve alive rest _ h _ h137
    · have hkeep : alookup h (pass1Codes alive e0 codes) = none := by
        rcases pass1Codes_cases alive e0 codes with hc | ⟨h1, hn1, hhits1, hc⟩
        · rw [hc]; exact hnone
        · rw [hc]
          have hne : h1 ≠ h := fun he => hhit (he ▸ hhits1)
          rw [alookup_awrite_ne h h1 _ codes hne]
          exact hnone
      apply ih _ hkeep
      rcases hex with ⟨e, he, hh⟩
      rcases List.mem_cons.mp he with rfl | hrest
      · exact absurd hh hhit
      · exact ⟨e, hrest, hh⟩

theorem reconcilePass1_files_getElem (alive : Int → Bool) (st : St) (i : Nat) :
    (reconcilePass1 alive st).files[i]? = (st.files[i]?).map (pass1File alive) := by
  unfold reconcilePass1
  simp [List.getElem?_map]

theorem reconcilePass1_exitCodes (alive : Int → Bool) (st : St) :
    (reconcilePass1 alive st).exitCodes =
      st.files.foldl (fun cs e => pass1Codes alive e cs) st.exitCodes := rfl

/- ------------------------------------------------------------------ -/
/- Name-pattern and serialization lemmas                               -/
/- ------------------------------------------------------------------ -/

theorem globProcMatch_shape (tail : Chars) :
    globProcMatch (str "proc-" ++ tail ++ str ".state") = true := by
  unfold globProcMatch
  rw [Bool.and_eq_true]
  constructor
  · rw [ List.isPrefixOf_iff_prefix]
    exact (List.prefix_append (str "proc-") tail).trans (List.prefix_append _ _)
  · have h5 : (str "proc-").length = 5 := rfl
    have hdrop : (str "proc-" ++ tail ++ str ".state").drop 5 = tail ++ str ".state" := by
      rw [List.append_assoc, ← h5, List.drop_left]
    rw [hdrop, List.isSuffixOf_iff_suffix]
    exact List.suffix_append _ _

theorem mkStateName_eq (host ts : Chars) :
    mkStateName host ts = str "proc-" ++ (host ++ str "-" ++ ts) ++ str ".state" := by
  unfold mkStateName
  simp [List.append_assoc]

theorem globProcMatch_mkStateName (host ts : Chars) :
    globProcMatch (mkStateName host ts) = true := by
  rw [mkStateName_eq]
  exact globProcMatch_shape (host ++ str "-" ++ ts)

theorem stripChars_eq_join_of_recFields (raw : Chars) (fs : List Chars)
    (h : recFields raw = fs) : stripChars raw = joinWith '|' fs := by
  rw [← h]
  exact (joinWith_splitOnChar '|' (stripChars raw)).symm

theorem recFields_no_pipe (raw : Chars) (f : Chars) (hf : f ∈ recFields raw) :
    '|' ∉ f :=
  splitOnChar_no_delim '|' (stripChars raw) f hf

theorem recFields_join6 (f0 f1 f2 f3 v f5 : Chars)
    (h0 : '|' ∉ f0) (h1 : '|' ∉ f1) (h2 : '|' ∉ f2) (h3 : '|' ∉ f3)
    (hv : '|' ∉ v) (h5 : '|' ∉ f5)
    (hd0 : f0.dropWhile isPySpace = f0)
    (hd5 : f5.reverse.dropWhile isPySpace = f5.reverse) :
    recFields (joinWith '|' [f0, f1, f2, f3, v, f5]) = [f0, f1, f2, f3, v, f5] := by
  unfold recFields
  rw [stripChars_join6 f0 f1 f2 f3 v f5 hd0 hd5]
  apply splitOnChar_joinWith
  · simp
  · intro f hf
    simp only [List.mem_cons, List.not_mem_nil, or_false] at hf
    rcases hf with rfl | rfl | rfl | rfl | rfl | rfl <;> assumption

theorem flookup_fwrite_self (nm c : Chars) (files : List FEntry) :
    flookup nm (fwrite nm c files) = some (some c) := by
  induction files with
  | nil => simp [fwrite, flookup]
  | cons e rest ih =>
    by_cases h : e.name = nm
    · simp [fwrite, flookup, h]
    · simp [fwrite, flookup, h, ih]

theorem modeOf_no_pipe (a b : Bool) : '|' ∉ modeOf a b := by
  cases a <;> cases b <;> decide

theorem classifyDead_no_pipe (ec lg : List (Chars × Option Chars))
    (hostname logfile : Chars) : '|' ∉ classifyDead ec lg hostname logfile := by
  unfold classifyDead
  split
  · decide
  · split
    · decide
    · decide

theorem getElem_append_cons (pre : List α) (e : α) (post : List α) :
    (pre ++ e :: post)[pre.length]? = some e := by
  rw [List.getElem?_append_right (Nat.le_refl pre.length)]
  simp

theorem getElem_append_self (l : List α) (e : α) :
    (l ++ [e])[l.length]? = some e := getElem_append_cons l e []

/- ------------------------------------------------------------------ -/
/- The claims                                                          -/
/- ------------------------------------------------------------------ -/

theorem killHit_runningLive (alive : Int → Bool) (host : Chars) (e : FEntry)
    (h : killHit alive host e = true) : runningLiveRecordFor alive host e := by
  unfold killHit at h
  rw [Bool.and_eq_true] at h
  obtain ⟨hg, hrest⟩ := h
  cases hc : e.content with
  | none =>
    rw [hc] at hrest
    simp at hrest
  | some raw =>
    rw [hc] at hrest
    dsimp only at hrest
    rw [Bool.and_eq_true, Bool.and_eq_true] at hrest
    obtain ⟨⟨hA, hB⟩, hM⟩ := hrest
    cases hi : intOfStr ((splitOnChar '|' (stripChars raw)).getD 0 []) with
    | none =>
      rw [hi] at hM
      simp at hM
    | some n =>
      rw [hi] at hM
      rw [Bool.and_eq_true] at hM
      obtain ⟨hn, hal⟩ := hM
      exact ⟨hg, raw, hc, of_decide_eq_true hA, of_decide_eq_true hB, n, hi,
        of_decide_eq_true hn, hal⟩

/-- C6: when no stored record for the subject is a running record whose
process is alive (a subject-keyed file that reads, parses to at least six
fields, has status running, and a pid denoting a positive integer whose
liveness probe succeeds), _api_backup_kill reports not-found and returns
the state with every record, marker and log unchanged. -/
theorem C6_kill_not_found (alive : Int → Bool) (host now : Chars) (st : St)
    (h : ∀ e ∈ st.files, ¬ runningLiveRecordFor alive host e) :
    apiBackupKill alive host now st = (KillRes.notFound, st) := by
  have hall : ∀ e ∈ st.files, killHit alive host e = false := by
    intro e he
    by_contra hne
    have ht : killHit alive host e = true := by
      revert hne
      cases killHit alive host e <;> simp
    exact h e he (killHit_runningLive alive host e ht)
  unfold apiBackupKill
  rw [killLoop_none alive host now st.files st.logs hall]

/-- C6 witness: a store holding one completed record for the subject and
one running record whose process is dead; kill returns not-found and the
exact same state. -/
theorem C6_kill_not_found_witness :
    apiBackupKill (fun _ => false) (str "db9") (str "NOW")
      { files := [⟨str "proc-db9-1.state", some (str "7|db9|full|T1|completed|L")⟩,
                  ⟨str "proc-db9-2.state", some (str "8|db9|full|T2|running|L")⟩],
        exitCodes := [], logs := [] } =
      (KillRes.notFound,
       { files := [⟨str "proc-db9-1.state", some (str "7|db9|full|T1|completed|L")⟩,
                   ⟨str "proc-db9-2.state", some (str "8|db9|full|T2|running|L")⟩],
         exitCodes := [], logs := [] }) :=
  C6_kill_not_found (fun _ => false) (str "db9") (str "NOW")
    { files := [⟨str "proc-db9-1.state", some (str "7|db9|full|T1|completed|L")⟩,
                ⟨str "proc-db9-2.state", some (str "8|db9|full|T2|running|L")⟩],
      exitCodes := [], logs := [] }
    (by
      intro e he
      rcases List.mem_cons.mp he with rfl | he2
      · rintro ⟨-, raw, hcr, -, hst, -⟩
        injection hcr with hr
        subst hr
        exact absurd hst (by decide)
      · rcases List.mem_cons.mp he2 with rfl | he3
        · rintro ⟨-, raw, hcr, -, -, n, -, -, hal⟩
          simp at hal
        · cases he3)

/-- C7: get_processes_json rewrites only records whose persisted status
is running, so any number of list calls leaves a record with a terminal
persisted status (completed, failed or killed) byte-for-byte
unchanged. -/
theorem C7_list_idempotent_on_terminal (alive : Int → Bool) (st : St) (i : Nat)
    (e : FEntry) (raw : Chars) (k : Nat)
    (hget : st.files[i]? = some e)
    (hcont : e.content = some raw)
    (hterm : recStatus raw = str "completed" ∨ recStatus raw = str "failed" ∨
      recStatus raw = str "killed") :
    (listIter alive k st).files[i]? = some e := by
  apply listIter_preserve alive i e ?_ k st hget
  intro raw2 hc2
  rw [hcont] at hc2
  injection hc2 with he
  subst he
  refine Or.inr ?_
  rintro ⟨hrun, -, -⟩
  unfold recStatus at hterm
  rcases hterm with h | h | h <;> rw [h] at hrun <;> exact absurd hrun (by decide)

/-- C7 witness: three list calls leave a killed record unchanged. -/
theorem C7_list_idempotent_on_terminal_witness :
    (listIter (fun _ => true) 3
      { files := [⟨str "proc-a-1.state", some (str "9|a|full|T|killed|L")⟩],
        exitCodes := [], logs := [] }).files[0]? =
      some ⟨str "proc-a-1.state", some (str "9|a|full|T|killed|L")⟩ :=
  C7_list_idempotent_on_terminal (fun _ => true) _ 0 _ (str "9|a|full|T|killed|L") 3
    (by decide) rfl (Or.inr (Or.inr (by decide)))

/-- C9: enumeration skips, without raising, every state file whose read
fails or whose content splits into fewer than six pipe-delimited fields:
the file is left unchanged, counts as not well formed, and the listing
holds exactly one entry per well-formed file, so corruption only reduces
listing completeness. -/
theorem C9_malformed_skipped (alive : Int → Bool) (st : St) (i : Nat) (e : FEntry)
    (hget : st.files[i]? = some e)
    (hbad : e.content = none ∨
      ∃ raw, e.content = some raw ∧ (recFields raw).length < 6) :
    (listOnce alive st).2.files[i]? = some e ∧
      wellFormedEntry e = false ∧
      (listOnce alive st).1.length = st.files.countP wellFormedEntry := by
  have hunt : ∀ raw, e.content = some raw →
      (recFields raw).length < 6 ∨
      ¬ ((recFields raw).getD 4 [] = str "running" ∧ (recFields raw).getD 0 [] ≠ str "0" ∧
        isProcessAlive alive ((recFields raw).getD 0 []) = false) := by
    intro raw2 hc
    rcases hbad with hn | ⟨raw, hcr, h6⟩
    · rw [hn] at hc; cases hc
    · rw [hcr] at hc
      injection hc with he
      subst he
      exact Or.inl h6
  refine ⟨?_, ?_, listOnce_length alive st⟩
  · rw [listOnce_files_getElem, hget]
    simp [listEntry_snd_untouched alive st.exitCodes st.logs e hunt]
  · unfold wellFormedEntry
    rcases hbad with hn | ⟨raw, hcr, h6⟩
    · rw [hn]
      simp
    · rw [hcr]
      dsimp only
      simp only [recFields] at h6
      have hd : decide (6 ≤ (recFields raw).length) = false :=
        decide_eq_false (Nat.not_le.mpr h6)
      rw [hd, Bool.and_false]

/-- C9 witness: a store with one well-formed record, one three-field
record and one unreadable record lists exactly one entry and leaves the
malformed record unchanged. -/
theorem C9_malformed_skipped_witness :
    (listOnce (fun _ => true)
      { files := [⟨str "proc-a-1.state", some (str "9|a|full|T|killed|L")⟩,
                  ⟨str "proc-b-1.state", some (str "bad|data")⟩,
                  ⟨str "proc-c-1.state", none⟩],
        exitCodes := [], logs := [] }).2.files[1]? =
        some ⟨str "proc-b-1.state", some (str "bad|data")⟩ ∧
      wellFormedEntry ⟨str "proc-b-1.state", some (str "bad|data")⟩ = false ∧
      (listOnce (fun _ => true)
        { files := [⟨str "proc-a-1.state", some (str "9|a|full|T|killed|L")⟩,
                    ⟨str "proc-b-1.state", some (str "bad|data")⟩,
                    ⟨str "proc-c-1.state", none⟩],
          exitCodes := [], logs := [] }).1.length =
        List.countP wellFormedEntry
          [⟨str "proc-a-1.state", some (str "9|a|full|T|killed|L")⟩,
           ⟨str "proc-b-1.state", some (str "bad|data")⟩,
           ⟨str "proc-c-1.state", none⟩] :=
  C9_malformed_skipped (fun _ => true) _ 1 _ (by decide)
    (Or.inr ⟨str "bad|data", rfl, by decide⟩)

theorem listEntry_sentinel (alive : Int → Bool) (ec lg : List (Chars × Option Chars))
    (e : FEntry) (raw : Chars)
    (hglob : globProcMatch e.name = true)
    (hcont : e.content = some raw)
    (h6 : 6 ≤ (recFields raw).length)
    (hstat : (recFields raw).getD 4 [] = str "running")
    (hpid : (recFields raw).getD 0 [] = str "0") :
    listEntry alive ec lg e =
      (some ⟨0, (recFields raw).getD 1 [], (recFields raw).getD 2 [],
        (recFields raw).getD 3 [], str "running",
        basenameChars ((recFields raw).getD 5 [])⟩, e) := by
  simp only [recFields] at h6 hstat hpid
  unfold listEntry processRecord
  simp only [hglob, if_true]
  rw [hcont]
  dsimp only
  rw [if_neg (Nat.not_lt.mpr h6)]
  rw [if_neg ?hg]
  case hg =>
    rintro ⟨-, hne, -⟩
    exact hne hpid
  rw [hstat, hpid]
  have hp0 : pidDisplay (str "0") = 0 := by decide
  rw [hp0]
  rfl

theorem running_sentinel_listed (alive : Int → Bool) (st : St) (i : Nat)
    (e : FEntry) (raw : Chars)
    (hget : st.files[i]? = some e)
    (hglob : globProcMatch e.name = true)
    (hcont : e.content = some raw)
    (h6 : 6 ≤ (recFields raw).length)
    (hstat : (recFields raw).getD 4 [] = str "running")
    (hpid : (recFields raw).getD 0 [] = str "0") :
    (listOnce alive st).2.files[i]? = some e ∧
      (⟨0, (recFields raw).getD 1 [], (recFields raw).getD 2 [],
        (recFields raw).getD 3 [], str "running",
        basenameChars ((recFields raw).getD 5 [])⟩ : ProcView) ∈ (listOnce alive st).1 := by
  have hle := listEntry_sentinel alive st.exitCodes st.logs e raw hglob hcont h6 hstat hpid
  constructor
  · rw [listOnce_files_getElem, hget]
    simp [hle]
  · refine mem_listOnce alive st e _ (List.getElem?_mem hget) ?_
    rw [hle]

/-- C10: a stored running record whose pid field is the sentinel string 0
is exempt from the liveness probe and from reclassification: whatever the
liveness environment says about any process, the record file is returned
unchanged and the listing reports it with status running. -/
theorem C10_sentinel_pid_not_probed (alive : Int → Bool) (st : St) (i : Nat)
    (e : FEntry) (raw : Chars)
    (hget : st.files[i]? = some e)
    (hglob : globProcMatch e.name = true)
    (hcont : e.content = some raw)
    (h6 : 6 ≤ (recFields raw).length)
    (hstat : (recFields raw).getD 4 [] = str "running")
    (hpid : (recFields raw).getD 0 [] = str "0") :
    (listOnce alive st).2.files[i]? = some e ∧
      (⟨0, (recFields raw).getD 1 [], (recFields raw).getD 2 [],
        (recFields raw).getD 3 [], str "running",
        basenameChars ((recFields raw).getD 5 [])⟩ : ProcView) ∈ (listOnce alive st).1 :=
  running_sentinel_listed alive st i e raw hget hglob hcont h6 hstat hpid

/-- C10 witness: with an environment in which no process at all is alive,
the placeholder record is still reported as running and left unchanged. -/
theorem C10_sentinel_pid_not_probed_witness :
    (listOnce (fun _ => false)
      { files := [⟨str "proc-x-1.state", some (str "0|x|full|T|running|")⟩],
        exitCodes := [], logs := [] }).2.files[0]? =
        some ⟨str "proc-x-1.state", some (str "0|x|full|T|running|")⟩ ∧
      (⟨0, str "x", str "full", str "T", str "running", str ""⟩ : ProcView) ∈
        (listOnce (fun _ => false)
          { files := [⟨str "proc-x-1.state", some (str "0|x|full|T|running|")⟩],
            exitCodes := [], logs := [] }).1 :=
  C10_sentinel_pid_not_probed (fun _ => false) _ 0 _ (str "0|x|full|T|running|")
    (by decide) (by decide) rfl (by decide) (by decide) (by decide)

/-- C2: the pre-spawn half of _api_backup_start durably writes exactly
one new record, keyed by subject and timestamp, holding pid sentinel 0
and status running; the background thread that spawns the child only
starts afterwards, and in every liveness environment a subsequent list
call reports that record as running and leaves it unchanged. -/
theorem C2_launch_writes_running_record (host ts started logfile : Chars)
    (filesOnly dbOnly : Bool) (st : St) (alive : Int → Bool)
    (hfresh : flookup (mkStateName host ts) st.files = none)
    (hh : '|' ∉ host) (hs : '|' ∉ started) (hl : '|' ∉ logfile)
    (hd5 : logfile.reverse.dropWhile isPySpace = logfile.reverse) :
    (apiBackupStartInit host ts (modeOf filesOnly dbOnly) started logfile st).files =
      st.files ++ [⟨mkStateName host ts,
        some (initialContent host (modeOf filesOnly dbOnly) started logfile)⟩] ∧
    recFields (initialContent host (modeOf filesOnly dbOnly) started logfile) =
      [str "0", host, modeOf filesOnly dbOnly, started, str "running", logfile] ∧
    (listOnce alive
        (apiBackupStartInit host ts (modeOf filesOnly dbOnly) started logfile st)).2.files[st.files.length]? =
      some ⟨mkStateName host ts,
        some (initialContent host (modeOf filesOnly dbOnly) started logfile)⟩ ∧
    (⟨0, host, modeOf filesOnly dbOnly, started, str "running",
      basenameChars logfile⟩ : ProcView) ∈
      (listOnce alive
        (apiBackupStartInit host ts (modeOf filesOnly dbOnly) started logfile st)).1 := by
  have hwrite : (apiBackupStartInit host ts (modeOf filesOnly dbOnly) started logfile st).files =
      st.files ++ [⟨mkStateName host ts,
        some (initialContent host (modeOf filesOnly dbOnly) started logfile)⟩] := by
    unfold apiBackupStartInit
    simp only []
    rw [fwrite_fresh _ _ _ hfresh]
  have hfields : recFields (initialContent host (modeOf filesOnly dbOnly) started logfile) =
      [str "0", host, modeOf filesOnly dbOnly, started, str "running", logfile] := by
    unfold initialContent
    exact recFields_join6 _ _ _ _ _ _ (by decide) hh (modeOf_no_pipe filesOnly dbOnly)
      hs (by decide) hl (by decide) hd5
  have hget2 : (apiBackupStartInit host ts (modeOf filesOnly dbOnly) started logfile st).files[st.files.length]? =
      some ⟨mkStateName host ts,
        some (initialContent host (modeOf filesOnly dbOnly) started logfile)⟩ := by
    rw [hwrite]
    exact getElem_append_self st.files _
  have hlisted := running_sentinel_listed alive
    (apiBackupStartInit host ts (modeOf filesOnly dbOnly) started logfile st)
    st.files.length _ (initialContent host (modeOf filesOnly dbOnly) started logfile)
    hget2 (globProcMatch_mkStateName host ts) rfl
    (by rw [hfields]; simp) (by rw [hfields]; rfl) (by rw [hfields]; rfl)
  refine ⟨hwrite, hfields, hlisted.1, ?_⟩
  have hmem := hlisted.2
  rw [hfields] at hmem
  exact hmem

/-- C2 witness: launching for subject x at a fresh timestamp over a store
holding an unrelated record adds exactly one running placeholder record,
visible to list in an environment with no live processes. -/
theorem C2_launch_writes_running_record_witness :
    (apiBackupStartInit (str "x") (str "T1") (modeOf false false) (str "T")
        (str "/l/b.log")
        { files := [⟨str "proc-y-1.state", some (str "3|y|full|T|failed|L")⟩],
          exitCodes := [], logs := [] }).files =
      [⟨str "proc-y-1.state", some (str "3|y|full|T|failed|L")⟩] ++
        [⟨mkStateName (str "x") (str "T1"),
          some (initialContent (str "x") (modeOf false false) (str "T") (str "/l/b.log"))⟩] ∧
    recFields (initialContent (str "x") (modeOf false false) (str "T") (str "/l/b.log")) =
      [str "0", str "x", modeOf false false, str "T", str "running", str "/l/b.log"] ∧
    (listOnce (fun _ => false)
        (apiBackupStartInit (str "x") (str "T1") (modeOf false false) (str "T")
          (str "/l/b.log")
          { files := [⟨str "proc-y-1.state", some (str "3|y|full|T|failed|L")⟩],
            exitCodes := [], logs := [] })).2.files[1]? =
      some ⟨mkStateName (str "x") (str "T1"),
        some (initialContent (str "x") (modeOf false false) (str "T") (str "/l/b.log"))⟩ ∧
    (⟨0, str "x", modeOf false false, str "T", str "running",
      basenameChars (str "/l/b.log")⟩ : ProcView) ∈
      (listOnce (fun _ => false)
        (apiBackupStartInit (str "x") (str "T1") (modeOf false false) (str "T")
          (str "/l/b.log")
          { files := [⟨str "proc-y-1.state", some (str "3|y|full|T|failed|L")⟩],
            exitCodes := [], logs := [] })).1 :=
  C2_launch_writes_running_record (str "x") (str "T1") (str "T") (str "/l/b.log")
    false false _ (fun _ => false) (by decide) (by decide) (by decide) (by decide)
    (by decide)

/-- C3: at startup, the first reconciliation pass rewrites every
parseable running record whose recorded process is dead (pass1Dead: not a
positive all-digit pid with a succeeding probe) to status failed with the
other five fields kept, and, when no exit-code marker is stored for that
subject yet, creates one holding the killed/terminated sentinel 137. -/
theorem C3_reconciler_marks_dead_failed (alive : Int → Bool) (st : St) (i : Nat)
    (e : FEntry) (raw f0 f1 f2 f3 f5 : Chars)
    (hget : st.files[i]? = some e)
    (hglob : globProcMatch e.name = true)
    (hcont : e.content = some raw)
    (hparts : recFields raw = [f0, f1, f2, f3, str "running", f5])
    (hdead : pass1Dead alive f0 = true)
    (hd0 : f0.dropWhile isPySpace = f0)
    (hd5 : f5.reverse.dropWhile isPySpace = f5.reverse) :
    (reconcilePass1 alive st).files[i]? =
      some ⟨e.name, some (joinWith '|' [f0, f1, f2, f3, str "failed", f5])⟩ ∧
    recFields (joinWith '|' [f0, f1, f2, f3, str "failed", f5]) =
      [f0, f1, f2, f3, str "failed", f5] ∧
    (alookup f1 st.exitCodes = none →
      alookup f1 (reconcilePass1 alive st).exitCodes = some (some (str "137"))) := by
  have hsp : splitOnChar '|' (stripChars raw) = [f0, f1, f2, f3, str "running", f5] := hparts
  have h0 : '|' ∉ f0 := recFields_no_pipe raw f0 (by rw [hparts]; simp)
  have h1 : '|' ∉ f1 := recFields_no_pipe raw f1 (by rw [hparts]; simp)
  have h2 : '|' ∉ f2 := recFields_no_pipe raw f2 (by rw [hparts]; simp)
  have h3 : '|' ∉ f3 := recFields_no_pipe raw f3 (by rw [hparts]; simp)
  have h5 : '|' ∉ f5 := recFields_no_pipe raw f5 (by rw [hparts]; simp)
  have hp1 : pass1File alive e =
      ⟨e.name, some (joinWith '|' [f0, f1, f2, f3, str "failed", f5])⟩ := by
    unfold pass1File
    simp only [hglob, if_true]
    rw [hcont]
    dsimp only
    rw [hsp]
    simp only [List.getD_cons_zero, List.getD_cons_succ, List.length_cons,
      List.length_nil]
    rw [if_neg (by omega)]
    rw [if_neg (by simp)]
    rw [if_pos hdead]
  have hhits : pass1Hits alive f1 e = true := by
    unfold pass1Hits recFields
    rw [hcont]
    dsimp only
    rw [hsp]
    simp [hglob, hdead]
  refine ⟨?_, ?_, ?_⟩
  · rw [reconcilePass1_files_getElem, hget]
    simp [hp1]
  · exact recFields_join6 f0 f1 f2 f3 (str "failed") f5 h0 h1 h2 h3 (by decide) h5 hd0 hd5
  · intro hmarker
    rw [reconcilePass1_exitCodes]
    exact pass1_fold_reach alive f1 st.files st.exitCodes hmarker
      ⟨e, List.getElem?_mem hget, hhits⟩

/-- C3 witness: the spec scenario: a running record for db1 with pid 4821
and no process alive; the reconciler marks it failed and, the marker
store being empty, fabricates the 137 marker for db1. -/
theorem C3_reconciler_marks_dead_failed_witness :
    (reconcilePass1 (fun _ => false)
      { files := [⟨str "proc-db1-1.state",
          some (str "4821|db1|full|2024-01-01 00:00:00|running|/l/db1.log")⟩],
        exitCodes := [], logs := [] }).files[0]? =
      some ⟨str "proc-db1-1.state",
        some (joinWith '|' [str "4821", str "db1", str "full",
          str "2024-01-01 00:00:00", str "failed", str "/l/db1.log"])⟩ ∧
    recFields (joinWith '|' [str "4821", str "db1", str "full",
        str "2024-01-01 00:00:00", str "failed", str "/l/db1.log"]) =
      [str "4821", str "db1", str "full", str "2024-01-01 00:00:00", str "failed",
        str "/l/db1.log"] ∧
    alookup (str "db1")
        (reconcilePass1 (fun _ => false)
          { files := [⟨str "proc-db1-1.state",
              some (str "4821|db1|full|2024-01-01 00:00:00|running|/l/db1.log")⟩],
            exitCodes := [], logs := [] }).exitCodes =
      some (some (str "137")) := by
  have h := C3_reconciler_marks_dead_failed (fun _ => false)
    { files := [⟨str "proc-db1-1.state",
        some (str "4821|db1|full|2024-01-01 00:00:00|running|/l/db1.log")⟩],
      exitCodes := [], logs := [] } 0
    ⟨str "proc-db1-1.state",
      some (str "4821|db1|full|2024-01-01 00:00:00|running|/l/db1.log")⟩
    (str "4821|db1|full|2024-01-01 00:00:00|running|/l/db1.log")
    (str "4821") (str "db1") (str "full") (str "2024-01-01 00:00:00")
    (str "/l/db1.log")
    (by decide) (by decide) rfl (by decide) (by decide) (by decide) (by decide)
  exact ⟨h.1, h.2.1, h.2.2 rfl⟩

/-- C8: once the child exits, run_backup writes the exit-code marker for
the subject first (the head of its write trace) and then the terminal
record: in the resulting state the marker holds the textual exit code and
the record's persisted status is completed exactly when the exit code is
zero, failed otherwise. -/
theorem C8_exit_marker_then_terminal (host ts mode started logfile : Chars)
    (pid : Nat) (exitCode : Int) (st : St)
    (hh : '|' ∉ host) (hm : '|' ∉ mode) (hs : '|' ∉ started) (hl : '|' ∉ logfile)
    (hd5 : logfile.reverse.dropWhile isPySpace = logfile.reverse) :
    (runBackupExitTrace host ts mode started logfile pid exitCode).head? =
      some (WEvent.exitMarker host (intToStr exitCode)) ∧
    alookup host (runBackupOnExit host ts mode started logfile pid exitCode st).exitCodes =
      some (some (intToStr exitCode)) ∧
    flookup (mkStateName host ts)
        (runBackupOnExit host ts mode started logfile pid exitCode st).files =
      some (some (joinWith '|' [natToStr pid, host, mode, started,
        (if exitCode = 0 then str "completed" else str "failed"), logfile])) ∧
    recStatus (joinWith '|' [natToStr pid, host, mode, started,
        (if exitCode = 0 then str "completed" else str "failed"), logfile]) =
      (if exitCode = 0 then str "completed" else str "failed") := by
  refine ⟨rfl, ?_, ?_, ?_⟩
  · show alookup host (awrite host (some (intToStr exitCode)) st.exitCodes) =
      some (some (intToStr exitCode))
    exact alookup_awrite_self host _ st.exitCodes
  · show flookup (mkStateName host ts)
        (fwrite (mkStateName host ts) _ st.files) = _
    exact flookup_fwrite_self (mkStateName host ts) _ st.files
  · have hstp : '|' ∉ (if exitCode = 0 then str "completed" else str "failed") := by
      split <;> decide
    have hfields := recFields_join6 (natToStr pid) host mode started
      (if exitCode = 0 then str "completed" else str "failed") logfile
      (natToStr_no_pipe pid) hh hm hs hstp hl (natToStr_dropWhile pid) hd5
    unfold recStatus
    rw [hfields]
    rfl

/-- C8 witness: subject h exits with code 3: the marker holds 3 and the
record's persisted status is failed; with code 0 it would be completed. -/
theorem C8_exit_marker_then_terminal_witness :
    (runBackupExitTrace (str "h") (str "T1") (str "full") (str "T")
        (str "/l/b.log") 42 3).head? =
      some (WEvent.exitMarker (str "h") (intToStr 3)) ∧
    alookup (str "h")
        (runBackupOnExit (str "h") (str "T1") (str "full") (str "T")
          (str "/l/b.log") 42 3
          { files := [], exitCodes := [], logs := [] }).exitCodes =
      some (some (intToStr 3)) ∧
    flookup (mkStateName (str "h") (str "T1"))
        (runBackupOnExit (str "h") (str "T1") (str "full") (str "T")
          (str "/l/b.log") 42 3
          { files := [], exitCodes := [], logs := [] }).files =
      some (some (joinWith '|' [natToStr 42, str "h", str "full", str "T",
        (if (3 : Int) = 0 then str "completed" else str "failed"), str "/l/b.log"])) ∧
    recStatus (joinWith '|' [natToStr 42, str "h", str "full", str "T",
        (if (3 : Int) = 0 then str "completed" else str "failed"), str "/l/b.log"]) =
      (if (3 : Int) = 0 then str "completed" else str "failed") :=
  C8_exit_marker_then_terminal (str "h") (str "T1") (str "full") (str "T")
    (str "/l/b.log") 42 3 { files := [], exitCodes := [], logs := [] }
    (by decide) (by decide) (by decide) (by decide) (by decide)

/-- C1: when list meets a stored running record with a non-sentinel pid
whose process is dead, it reclassifies by priority: a present, readable,
non-zero exit-code marker forces failed; otherwise a readable log with a
bracketed-ERROR marker forces failed; otherwise completed. The rewritten
record is already persisted in the store list returns, its persisted
status field reads back as the new status, and the listing reports that
status. -/
theorem C1_list_reclassifies_dead_running (alive : Int → Bool) (st : St) (i : Nat)
    (e : FEntry) (raw f0 f1 f2 f3 f5 : Chars)
    (hget : st.files[i]? = some e)
    (hglob : globProcMatch e.name = true)
    (hcont : e.content = some raw)
    (hparts : recFields raw = [f0, f1, f2, f3, str "running", f5])
    (hpid : f0 ≠ str "0")
    (hdead : isProcessAlive alive f0 = false)
    (n1 : f1 ≠ str "running") (n2 : f2 ≠ str "running") (n3 : f3 ≠ str "running")
    (hd0 : f0.dropWhile isPySpace = f0)
    (hd5 : f5.reverse.dropWhile isPySpace = f5.reverse) :
    (exitNonZero st.exitCodes f1 = true →
      classifyDead st.exitCodes st.logs f1 f5 = str "failed") ∧
    (exitNonZero st.exitCodes f1 = false → logErr st.logs f5 = true →
      classifyDead st.exitCodes st.logs f1 f5 = str "failed") ∧
    (exitNonZero st.exitCodes f1 = false → logErr st.logs f5 = false →
      classifyDead st.exitCodes st.logs f1 f5 = str "completed") ∧
    (listOnce alive st).2.files[i]? =
      some ⟨e.name, some (joinWith '|'
        [f0, f1, f2, f3, classifyDead st.exitCodes st.logs f1 f5, f5])⟩ ∧
    recStatus (joinWith '|' [f0, f1, f2, f3,
        classifyDead st.exitCodes st.logs f1 f5, f5]) =
      classifyDead st.exitCodes st.logs f1 f5 ∧
    (⟨pidDisplay f0, f1, f2, f3, classifyDead st.exitCodes st.logs f1 f5,
      basenameChars f5⟩ : ProcView) ∈ (listOnce alive st).1 := by
  have hsp : splitOnChar '|' (stripChars raw) = [f0, f1, f2, f3, str "running", f5] :=
    hparts
  have hjoin : stripChars raw = joinWith '|' [f0, f1, f2, f3, str "running", f5] :=
    stripChars_eq_join_of_recFields raw _ hparts
  have h0 : '|' ∉ f0 := recFields_no_pipe raw f0 (by rw [hparts]; simp)
  have h1 : '|' ∉ f1 := recFields_no_pipe raw f1 (by rw [hparts]; simp)
  have h2 : '|' ∉ f2 := recFields_no_pipe raw f2 (by rw [hparts]; simp)
  have h3 : '|' ∉ f3 := recFields_no_pipe raw f3 (by rw [hparts]; simp)
  have h5 : '|' ∉ f5 := recFields_no_pipe raw f5 (by rw [hparts]; simp)
  have hrw : replaceAll (delimPat (str "running"))
      (delimPat (classifyDead st.exitCodes st.logs f1 f5)) (stripChars raw) =
      joinWith '|' [f0, f1, f2, f3, classifyDead st.exitCodes st.logs f1 f5, f5] := by
    rw [hjoin]
    exact replaceAll_sixFields f0 f1 f2 f3 f5 (str "running")
      (classifyDead st.exitCodes st.logs f1 f5) (by decide) h0 h1 h2 h3 h5 n1 n2 n3
  have hle : listEntry alive st.exitCodes st.logs e =
      (some ⟨pidDisplay f0, f1, f2, f3, classifyDead st.exitCodes st.logs f1 f5,
        basenameChars f5⟩,
       ⟨e.name, some (joinWith '|'
         [f0, f1, f2, f3, classifyDead st.exitCodes st.logs f1 f5, f5])⟩) := by
    unfold listEntry processRecord
    simp only [hglob, if_true]
    rw [hcont]
    dsimp only
    rw [hsp]
    simp only [List.getD_cons_zero, List.getD_cons_succ, List.length_cons,
      List.length_nil]
    rw [if_neg (by omega)]
    rw [if_pos ⟨trivial, hpid, hdead⟩]
    rw [hrw]
  refine ⟨?_, ?_, ?_, ?_, ?_, ?_⟩
  · intro hnz
    simp [classifyDead, hnz]
  · intro hnz hl2
    simp [classifyDead, hnz, hl2]
  · intro hnz hl2
    simp [classifyDead, hnz, hl2]
  · rw [listOnce_files_getElem, hget]
    simp [hle]
  · have hfields := recFields_join6 f0 f1 f2 f3
      (classifyDead st.exitCodes st.logs f1 f5) f5 h0 h1 h2 h3
      (classifyDead_no_pipe st.exitCodes st.logs f1 f5) h5 hd0 hd5
    unfold recStatus
    rw [hfields]
    rfl
  · refine mem_listOnce alive st e _ (List.getElem?_mem hget) ?_
    rw [hle]

/-- C1 witness: subject a, record dead at pid 77, no exit marker, a log
with a bracketed-ERROR line: reclassified and persisted as failed. -/
theorem C1_list_reclassifies_dead_running_witness :
    (exitNonZero [] (str "a") = true →
      classifyDead [] [(str "/l/a.log", some (str "x [ERROR ] y"))] (str "a")
        (str "/l/a.log") = str "failed") ∧
    (exitNonZero [] (str "a") = false →
      logErr [(str "/l/a.log", some (str "x [ERROR ] y"))] (str "/l/a.log") = true →
      classifyDead [] [(str "/l/a.log", some (str "x [ERROR ] y"))] (str "a")
        (str "/l/a.log") = str "failed") ∧
    (exitNonZero [] (str "a") = false →
      logErr [(str "/l/a.log", some (str "x [ERROR ] y"))] (str "/l/a.log") = false →
      classifyDead [] [(str "/l/a.log", some (str "x [ERROR ] y"))] (str "a")
        (str "/l/a.log") = str "completed") ∧
    (listOnce (fun _ => false)
        { files := [⟨str "proc-a-1.state", some (str "77|a|full|T|running|/l/a.log")⟩],
          exitCodes := [],
          logs := [(str "/l/a.log", some (str "x [ERROR ] y"))] }).2.files[0]? =
      some ⟨str "proc-a-1.state", some (joinWith '|'
        [str "77", str "a", str "full", str "T",
         classifyDead [] [(str "/l/a.log", some (str "x [ERROR ] y"))] (str "a")
           (str "/l/a.log"), str "/l/a.log"])⟩ ∧
    recStatus (joinWith '|' [str "77", str "a", str "full", str "T",
        classifyDead [] [(str "/l/a.log", some (str "x [ERROR ] y"))] (str "a")
          (str "/l/a.log"), str "/l/a.log"]) =
      classifyDead [] [(str "/l/a.log", some (str "x [ERROR ] y"))] (str "a")
        (str "/l/a.log") ∧
    (⟨pidDisplay (str "77"), str "a", str "full", str "T",
      classifyDead [] [(str "/l/a.log", some (str "x [ERROR ] y"))] (str "a")
        (str "/l/a.log"),
      basenameChars (str "/l/a.log")⟩ : ProcView) ∈
      (listOnce (fun _ => false)
        { files := [⟨str "proc-a-1.state", some (str "77|a|full|T|running|/l/a.log")⟩],
          exitCodes := [],
          logs := [(str "/l/a.log", some (str "x [ERROR ] y"))] }).1 :=
  C1_list_reclassifies_dead_running (fun _ => false)
    { files := [⟨str "proc-a-1.state", some (str "77|a|full|T|running|/l/a.log")⟩],
      exitCodes := [],
      logs := [(str "/l/a.log", some (str "x [ERROR ] y"))] } 0
    ⟨str "proc-a-1.state", some (str "77|a|full|T|running|/l/a.log")⟩
    (str "77|a|full|T|running|/l/a.log")
    (str "77") (str "a") (str "full") (str "T") (str "/l/a.log")
    (by decide) (by decide) rfl (by decide) (by decide) (by decide)
    (by decide) (by decide) (by decide) (by decide) (by decide)

/-- C5: when the first record the kill scan hits for a subject is a
well-formed running record with a live process, the call reports killed
and persists the record with status killed; list never rewrites a record
whose persisted status is not running, so after any number of subsequent
list calls the record still holds status killed. -/
theorem C5_kill_is_terminal (alive : Int → Bool) (host now : Chars) (st : St)
    (pre post : List FEntry) (e : FEntry) (raw f0 f1 f2 f3 f5 : Chars) (k : Nat)
    (hfiles : st.files = pre ++ e :: post)
    (hpre : ∀ x ∈ pre, killHit alive host x = false)
    (hhit : killHit alive host e = true)
    (hcont : e.content = some raw)
    (hparts : recFields raw = [f0, f1, f2, f3, str "running", f5])
    (n1 : f1 ≠ str "running") (n2 : f2 ≠ str "running") (n3 : f3 ≠ str "running")
    (hd0 : f0.dropWhile isPySpace = f0)
    (hd5 : f5.reverse.dropWhile isPySpace = f5.reverse) :
    (apiBackupKill alive host now st).1 = KillRes.killed ∧
    recStatus (joinWith '|' [f0, f1, f2, f3, str "killed", f5]) = str "killed" ∧
    (listIter alive k (apiBackupKill alive host now st).2).files[pre.length]? =
      some ⟨e.name, some (joinWith '|' [f0, f1, f2, f3, str "killed", f5])⟩ := by
  have hsp : splitOnChar '|' (stripChars raw) = [f0, f1, f2, f3, str "running", f5] :=
    hparts
  have hjoin : stripChars raw = joinWith '|' [f0, f1, f2, f3, str "running", f5] :=
    stripChars_eq_join_of_recFields raw _ hparts
  have h0 : '|' ∉ f0 := recFields_no_pipe raw f0 (by rw [hparts]; simp)
  have h1 : '|' ∉ f1 := recFields_no_pipe raw f1 (by rw [hparts]; simp)
  have h2 : '|' ∉ f2 := recFields_no_pipe raw f2 (by rw [hparts]; simp)
  have h3 : '|' ∉ f3 := recFields_no_pipe raw f3 (by rw [hparts]; simp)
  have h5 : '|' ∉ f5 := recFields_no_pipe raw f5 (by rw [hparts]; simp)
  have hrw : replaceAll (delimPat (str "running")) (delimPat (str "killed"))
      (stripChars raw) = joinWith '|' [f0, f1, f2, f3, str "killed", f5] := by
    rw [hjoin]
    exact replaceAll_sixFields f0 f1 f2 f3 f5 (str "running") (str "killed")
      (by decide) h0 h1 h2 h3 h5 n1 n2 n3
  have happ1 : (killApply now e st.logs).1 =
      ⟨e.name, some (joinWith '|' [f0, f1, f2, f3, str "killed", f5])⟩ := by
    unfold killApply
    rw [hcont]
    dsimp only
    rw [hrw]
  have hfields := recFields_join6 f0 f1 f2 f3 (str "killed") f5 h0 h1 h2 h3
    (by decide) h5 hd0 hd5
  have hres : apiBackupKill alive host now st =
      (KillRes.killed,
       { st with files := pre ++ (killApply now e st.logs).1 :: post,
                 logs := (killApply now e st.logs).2 }) := by
    unfold apiBackupKill
    rw [hfiles, killLoop_found alive host now pre e post st.logs hpre hhit]
  refine ⟨by rw [hres], ?_, ?_⟩
  · unfold recStatus
    rw [hfields]
    rfl
  · have hget2 : (apiBackupKill alive host now st).2.files[pre.length]? =
        some ⟨e.name, some (joinWith '|' [f0, f1, f2, f3, str "killed", f5])⟩ := by
      rw [hres]
      simp only []
      rw [happ1]
      exact getElem_append_cons pre _ post
    apply listIter_preserve alive pre.length _ ?_ k _ hget2
    intro raw2 hc2
    injection hc2 with he2
    subst he2
    refine Or.inr ?_
    rintro ⟨hrun, -, -⟩
    rw [hfields] at hrun
    have hk : ([f0, f1, f2, f3, str "killed", f5].getD 4 []) = str "killed" := rfl
    rw [hk] at hrun
    exact absurd hrun (by decide)

/-- C5 witness: killing db1 with its sole running, live record rewrites
it to killed; two subsequent list calls leave it as killed. -/
theorem C5_kill_is_terminal_witness :
    (apiBackupKill (fun _ => true) (str "db1") (str "NOW")
      { files := [⟨str "proc-db1-1.state",
          some (str "123|db1|full|T|running|/l/db1.log")⟩],
        exitCodes := [], logs := [] }).1 = KillRes.killed ∧
    recStatus (joinWith '|' [str "123", str "db1", str "full", str "T",
        str "killed", str "/l/db1.log"]) = str "killed" ∧
    (listIter (fun _ => true) 2
        (apiBackupKill (fun _ => true) (str "db1") (str "NOW")
          { files := [⟨str "proc-db1-1.state",
              some (str "123|db1|full|T|running|/l/db1.log")⟩],
            exitCodes := [], logs := [] }).2).files[List.length ([] : List FEntry)]? =
      some ⟨str "proc-db1-1.state", some (joinWith '|' [str "123", str "db1",
        str "full", str "T", str "killed", str "/l/db1.log"])⟩ :=
  C5_kill_is_terminal (fun _ => true) (str "db1") (str "NOW")
    { files := [⟨str "proc-db1-1.state",
        some (str "123|db1|full|T|running|/l/db1.log")⟩],
      exitCodes := [], logs := [] }
    [] []
    ⟨str "proc-db1-1.state", some (str "123|db1|full|T|running|/l/db1.log")⟩
    (str "123|db1|full|T|running|/l/db1.log")
    (str "123") (str "db1") (str "full") (str "T") (str "/l/db1.log") 2
    rfl (by intro x hx; cases hx) (by decide) rfl (by decide)
    (by decide) (by decide) (by decide) (by decide) (by decide)

/-- C4 is refuted on the code: the orphan-discovery pass checks only the
timestamp-less file proc-SUBJECT.state before fabricating a record, never
the timestamped proc-SUBJECT-TIMESTAMP.state records that launch writes.
Here db2 already has a running record, yet the pass creates a second
running record for db2; the inline comment of the source states the
intent of skipping subjects that already have a running state file. -/
theorem C4_orphan_pass_duplicates_running_record :
    recStatus (str "123|db2|full|2024-01-01 00:00:00|running|/l/db2.log") =
      str "running" ∧
    (reconcilePass2 [] (str "NOW")
      [str "  456 /bin/bash /opt/tm/bin/timemachine.sh db2 --trigger api"]
      { files := [⟨str "proc-db2-20240101_000000.state",
          some (str "123|db2|full|2024-01-01 00:00:00|running|/l/db2.log")⟩],
        exitCodes := [], logs := [] }).files =
      [⟨str "proc-db2-20240101_000000.state",
          some (str "123|db2|full|2024-01-01 00:00:00|running|/l/db2.log")⟩,
       ⟨str "proc-db2.state", some (str "456|db2|full|NOW|running|")⟩] := by
  constructor
  · decide
  · unfold reconcilePass2
    simp only [List.foldl_cons, List.foldl_nil]
    unfold pass2Line
    norm_num
    rfl
